import Mathlib

/-!
Verification of the concurrent-programming repository (coffee-shop dispenser
engine and distributed loyalty-points ledger) against its natural-language
specification.  Each Rust component relevant to the claims is shallowly
embedded as executable Lean definitions: machine integers (u8/u32) become Nat
with explicit wrap-around where overflow matters, f32 quantities become exact
rationals (the programs only add, subtract and compare them), HashMaps become
association lists, and actor handlers become pure state-transition functions
that also return the list of messages they emit.
-/

/- ===================================================================
   Assignment 2: wire codec (server/src/mensaje.rs) and the
   coordinator-side per-follower handler (server/src/nodo_handler.rs).
   =================================================================== -/

namespace Ledger

/-- The `Mensaje` enum of server/src/mensaje.rs. -/
inductive Mensaje where
  | STARTER
  | PREPARE
  | YES
  | EXECUTE
  | FINISH
  | COMMIT
  | OKEY
  | ABORT
  | PING
  | OKEYABORT
  | DISCONNECT
  | UNKNOWN
deriving DecidableEq, Repr

/-- `Mensaje::from_bytes`: decodes one byte (matched against the ASCII codes
48..58, i.e. the characters written by `u8::to_string`). -/
def Mensaje.fromBytes (byte : ℕ) : Mensaje :=
  if byte = 48 then .STARTER
  else if byte = 49 then .PREPARE
  else if byte = 50 then .YES
  else if byte = 51 then .EXECUTE
  else if byte = 52 then .FINISH
  else if byte = 53 then .COMMIT
  else if byte = 54 then .OKEY
  else if byte = 55 then .ABORT
  else if byte = 56 then .PING
  else if byte = 57 then .OKEYABORT
  else if byte = 58 then .DISCONNECT
  else .UNKNOWN

/-- `Mensaje::to_bytes`: the numeric code of a message kind. -/
def Mensaje.toBytes : Mensaje → ℕ
  | .STARTER => 0
  | .PREPARE => 1
  | .YES => 2
  | .EXECUTE => 3
  | .FINISH => 4
  | .COMMIT => 5
  | .OKEY => 6
  | .ABORT => 7
  | .PING => 8
  | .OKEYABORT => 9
  | .DISCONNECT => 10
  | .UNKNOWN => 11

/-- The serialized records (`MensajeBytes::to_string`, `Finish::f_to_string`,
`Commit::set_to_string`) all start with `tipo_mensaje.to_string()`, so the
first byte on the wire is the first ASCII character of the decimal
representation of the kind's numeric code. -/
def firstSerializedByte (m : Mensaje) : ℕ :=
  ((Nat.repr m.toBytes).data.map Char.toNat).headD 0

/-- Actions the NodoHandler stream handler can take on a received line
(nodo_handler.rs, `StreamHandler for NodoHandler`): forward the parsed message
to the Coordinador actor, or (in the PREPARE branch) set `conectado = false`
and send the coordinator a `Disconnect`, or print that the message was not
recognised. -/
inductive HandlerAction where
  | ForwardStarter
  | ForwardYes
  | ForwardPingCord
  | ForwardFinish
  | ForwardOkey
  | ForwardOkeyAbort
  | ForwardAbort
  | DisconnectCoordinator
  | NotRecognized
deriving DecidableEq, Repr

/-- The dispatch of `StreamHandler for NodoHandler` on the decoded first byte.
The `Mensaje::PREPARE` arm is the one that performs the disconnect (the code
comments: a handler never receives a Prepare, so the byte '1' produced by
serializing DISCONNECT = 10 lands here). -/
def nodoHandlerDispatch : Mensaje → HandlerAction
  | .STARTER => .ForwardStarter
  | .YES => .ForwardYes
  | .PING => .ForwardPingCord
  | .FINISH => .ForwardFinish
  | .OKEY => .ForwardOkey
  | .OKEYABORT => .ForwardOkeyAbort
  | .ABORT => .ForwardAbort
  | .PREPARE => .DisconnectCoordinator
  | _ => .NotRecognized

end Ledger

/- ===================================================================
   Assignment 2: BullyListener (server/src/bully_listener.rs).
   Only the fields and handlers the claims touch are modelled; the
   sockets and actor addresses are external I/O and are represented by
   the lists of messages a handler emits.
   =================================================================== -/

namespace Ledger

/-- `BullyState` of bully_listener.rs. -/
inductive BullyState where
  | NotExecuting
  | WaitingOkey
  | WaitingCoordinator
deriving DecidableEq, Repr

/-- The state of the `BullyListener` actor (addresses and sockets omitted). -/
structure BullyListener where
  estado : BullyState
  conectado : Bool
  id_nodo : ℕ
  soy_coordinador : Bool
deriving DecidableEq, Repr

/-- `CANT_MAX_NODOS` from utils.rs. -/
def CANT_MAX_NODOS : ℕ := 3

/-- `Handler<Coordinator> for BullyListener`: sets `estado = NotExecuting` and
sends `ReceiveNewCoordinator` with the announcing node's id to the local Nodo
actor.  Returns the new state and the ids sent in `ReceiveNewCoordinator`
notifications.  Note that the handler does not touch `soy_coordinador`. -/
def handleCoordinatorMsg (b : BullyListener) (src : ℕ) : BullyListener × List ℕ :=
  ({ b with estado := .NotExecuting }, [src])

/-- `Handler<TimeoutHandler> for BullyListener`: if still `WaitingOkey`, the
node self-promotes (`soy_coordinador = true`), broadcasts Coordinator(self) to
nodes 1..CANT_MAX_NODOS, and goes back to `NotExecuting`; otherwise it moves
to `WaitingCoordinator`.  Second component: the (destination, announced id)
pairs of the Coordinator broadcasts. -/
def handleTimeoutMsg (b : BullyListener) : BullyListener × List (ℕ × ℕ) :=
  if b.estado = BullyState.WaitingOkey then
    ({ b with soy_coordinador := true, estado := .NotExecuting },
      ((List.range CANT_MAX_NODOS).map (fun i => (i + 1, b.id_nodo))))
  else
    ({ b with estado := .WaitingCoordinator }, [])

/-- The decimal digit string produced by `to_string()` on an unsigned
integer, as a little-endian digit list; 0 prints as "0". -/
def decDigits (n : ℕ) : List ℕ :=
  if n = 0 then [0] else Nat.digits 10 n

/-- `new_id_transaccion` of nodo.rs (both the SUMAR and the RESTAR branch of
`Handler<ReceiveFromCafetera>`): the node id, the machine (cafetera) id and
the fresh local order counter are printed in decimal, concatenated, and
parsed back to an integer.  Embedded as the number whose decimal digit string
is that concatenation (the source's `parse::<u32>` yields exactly this value
whenever it fits in u32, and panics otherwise). -/
def newIdTransaccion (id_nodo id_cafetera contador : ℕ) : ℕ :=
  Nat.ofDigits 10 (decDigits contador ++ decDigits id_cafetera ++ decDigits id_nodo)

/-- Every digit printed is < 10. -/
lemma decDigits_lt (n : ℕ) : ∀ d ∈ decDigits n, d < 10 := by
  intro d hd
  unfold decDigits at hd
  by_cases h : n = 0
  · simp [h] at hd
    omega
  · rw [if_neg h] at hd
    exact Nat.digits_lt_base (by norm_num) hd

/-- A one-digit number prints as itself. -/
lemma decDigits_single (n : ℕ) (h1 : 1 ≤ n) (h9 : n ≤ 9) : decDigits n = [n] := by
  unfold decDigits
  rw [if_neg (by omega)]
  exact Nat.digits_of_lt 10 n (by omega) (by omega)

/-- For a one-digit node id, the decimal digits of the generated transaction
id are exactly the concatenated digit strings, ending in the node id. -/
lemma digits_newIdTransaccion (n m c : ℕ) (h1 : 1 ≤ n) (h9 : n ≤ 9) :
    Nat.digits 10 (newIdTransaccion n m c) = decDigits c ++ decDigits m ++ [n] := by
  unfold newIdTransaccion
  rw [decDigits_single n h1 h9]
  apply Nat.digits_ofDigits 10 (by norm_num)
  · intro l hl
    rcases List.mem_append.mp hl with hl' | hl'
    · rcases List.mem_append.mp hl' with h2 | h2
      · exact decDigits_lt c l h2
      · exact decDigits_lt m l h2
    · have : l = n := by simpa using hl'
      omega
  · intro hne
    rw [List.getLast_append_singleton]
    omega

/- ===================================================================
   Assignment 2: shared association-list embedding of the HashMaps of
   nodo.rs and coordinador.rs, plus u32 arithmetic.
   =================================================================== -/

/-- HashMap lookup on an association list. -/
def alookup {α : Type} (l : List (ℕ × α)) (k : ℕ) : Option α :=
  (l.find? (fun p => p.1 = k)).map (fun p => p.2)

/-- HashMap insert (overwrite) on an association list. -/
def aset {α : Type} (l : List (ℕ × α)) (k : ℕ) (v : α) : List (ℕ × α) :=
  (k, v) :: l.filter (fun p => p.1 ≠ k)

/-- In-place update of an existing entry (`get_mut`); entries of other keys
and a missing key are untouched. -/
def amodify {α : Type} (l : List (ℕ × α)) (k : ℕ) (f : α → α) : List (ℕ × α) :=
  l.map (fun p => if p.1 = k then (p.1, f p.2) else p)

lemma alookup_cons {α : Type} (p : ℕ × α) (l : List (ℕ × α)) (k : ℕ) :
    alookup (p :: l) k = if p.1 = k then some p.2 else alookup l k := by
  unfold alookup
  by_cases h : p.1 = k <;> simp [List.find?_cons, h]

lemma alookup_filter_ne {α : Type} (l : List (ℕ × α)) (k k' : ℕ) (h : k' ≠ k) :
    alookup (l.filter (fun p => p.1 ≠ k)) k' = alookup l k' := by
  induction l with
  | nil => rfl
  | cons p rest ih =>
    by_cases hp : p.1 = k
    · have h1 : (decide (p.1 ≠ k)) = false := by simp [hp]
      rw [List.filter_cons, h1]
      simp only [Bool.false_eq_true, if_false]
      rw [ih, alookup_cons, if_neg]
      intro hc
      rw [hp] at hc
      exact h hc.symm
    · have h1 : (decide (p.1 ≠ k)) = true := by simpa using hp
      rw [List.filter_cons, h1]
      simp only [if_true]
      rw [alookup_cons, alookup_cons, ih]

lemma alookup_aset {α : Type} (l : List (ℕ × α)) (k : ℕ) (v : α) (k' : ℕ) :
    alookup (aset l k v) k' = if k' = k then some v else alookup l k' := by
  unfold aset
  rw [alookup_cons]
  by_cases h : k' = k
  · simp [h]
  · rw [if_neg (fun hh => h hh.symm), if_neg h, alookup_filter_ne l k k' h]

lemma alookup_amodify {α : Type} (l : List (ℕ × α)) (k : ℕ) (f : α → α) (k' : ℕ) :
    alookup (amodify l k f) k' =
      if k' = k then (alookup l k).map f else alookup l k' := by
  induction l with
  | nil => simp [alookup, amodify]
  | cons p rest ih =>
    have hcons : amodify (p :: rest) k f
        = (if p.1 = k then (p.1, f p.2) else p) :: amodify rest k f := rfl
    rw [hcons]
    by_cases hp : p.1 = k
    · rw [if_pos hp, alookup_cons, alookup_cons]
      by_cases h : k' = k
      · subst h
        simp [hp]
      · have hne : ¬ p.1 = k' := by
          rw [hp]
          exact fun hc => h hc.symm
        simp only [hne, if_false, if_neg h]
        rw [ih, if_neg h, alookup_cons, if_neg hne]
    · rw [if_neg hp, alookup_cons, alookup_cons]
      by_cases hk' : p.1 = k'
      · have h : ¬ k' = k := by
          rw [← hk']
          exact fun hc => hp hc
        simp only [hk', if_true, if_neg h]
        rw [alookup_cons, if_pos hk']
      · simp only [hk', if_false]
        rw [ih]
        by_cases h : k' = k
        · subst h
          simp [alookup_cons, hp]
        · simp only [if_neg h]
          rw [alookup_cons, if_neg hk']

/-- 2^32, the modulus of u32 arithmetic. -/
def U32MOD : ℕ := 4294967296

/-- Wrapping u32 addition (release-build `+=`; a debug build panics at the
same inputs instead of wrapping). -/
def addU32 (a b : ℕ) : ℕ := (a + b) % U32MOD

/-- Wrapping u32 subtraction (release-build `-=`): the exact difference when
b <= a, wrap-around otherwise. -/
def subU32 (a b : ℕ) : ℕ := (a + (U32MOD - b % U32MOD)) % U32MOD

/- ===================================================================
   Assignment 2: the Nodo (replica) actor of server/src/nodo.rs — the
   StreamHandler branches for leader messages (PREPARE, EXECUTE,
   COMMIT, ABORT).  Sockets and actor addresses are opaque numbers;
   the messages a handler emits are returned as a list; `none` is an
   `.expect` panic.
   =================================================================== -/

/-- `CommitType` of mensaje.rs. -/
inductive CommitType where
  | SUMA
  | RESTA
  | UNKNOWN
deriving DecidableEq, Repr

/-- Node-side `TransactionState` of nodo.rs. -/
inductive TransactionStateNodo where
  | Accepted
  | Wait
  | WaitCommit
  | Locked
  | ToSend
  | Commit
  | Abort
deriving DecidableEq, Repr

/-- Node-side `Transaction` of nodo.rs. -/
structure Transaction where
  socket : ℕ
  cantidad : ℕ
  state : TransactionStateNodo
  id_cafetera : ℕ
  id_cuenta : ℕ
deriving DecidableEq, Repr

/-- `Cuenta` of nodo.rs.  `saldo` is a u32 kept below 2^32. -/
structure Cuenta where
  blocked : Bool
  saldo : ℕ
  transacciones : List (ℕ × ℕ)
deriving DecidableEq, Repr

/-- `SALDO_INICIAL` of utils.rs. -/
def SALDO_INICIAL : ℕ := 10000

/-- The `Nodo` actor state (TCP stream and actor addresses omitted). -/
structure Nodo where
  cuentas : List (ℕ × Cuenta)
  transacciones_resta : List (ℕ × Transaction)
  id_nodo : ℕ
  id_orden : ℕ
  conectado : Bool
  transacciones_suma : List (ℕ × Transaction)
  id_coordinador : ℕ
deriving DecidableEq, Repr

/-- The state of a fresh replica built in `Nodo::start`. -/
def initialNodo (id_nodo id_coordinador : ℕ) : Nodo :=
  { cuentas := [(1, { blocked := false, saldo := SALDO_INICIAL, transacciones := [] })],
    transacciones_resta := [],
    id_nodo := id_nodo,
    id_orden := 0,
    conectado := true,
    transacciones_suma := [],
    id_coordinador := id_coordinador }

/-- The four leader-to-node records the StreamHandler dispatches on. -/
inductive LeaderMsg where
  | prepare (id_nodo id_cuenta id_transaccion id_cafetera : ℕ)
  | execute (id_nodo id_cuenta id_transaccion id_cafetera : ℕ)
  | commitMsg (id_nodo id_cuenta id_transaccion : ℕ) (tipo : CommitType)
      (cantidad id_cafetera : ℕ)
  | abortMsg (id_nodo id_cuenta id_transaccion id_cafetera : ℕ)
deriving DecidableEq, Repr

/-- What the node emits while handling a leader message: a record back to
the leader or a UDP reply to the machine behind `socket` (`true` =
OkeyToCafetera, `false` = Error). -/
inductive NodoOutput where
  | sendYes (id_nodo id_cuenta id_transaccion id_cafetera : ℕ)
  | sendAbort (id_nodo id_cuenta id_transaccion id_cafetera : ℕ)
  | sendOk (id_nodo id_cuenta id_transaccion id_cafetera : ℕ)
  | sendOkAbort (id_nodo id_cuenta id_transaccion id_cafetera : ℕ)
  | toCafetera (socket : ℕ) (okey : Bool)
deriving DecidableEq, Repr

/-- The `StreamHandler for Nodo` branches for PREPARE, EXECUTE, COMMIT and
ABORT lines, translated clause by clause from nodo.rs. -/
def nodoHandleLeaderMsg (n : Nodo) (msg : LeaderMsg) :
    Option (Nodo × List NodoOutput) :=
  match msg with
  | .prepare _ id_cuenta id_transaccion id_cafetera =>
    let cuentas1 :=
      match alookup n.cuentas id_cuenta with
      | some _ => amodify n.cuentas id_cuenta (fun c => { c with blocked := true })
      | none =>
        aset n.cuentas id_cuenta
          { blocked := true, saldo := SALDO_INICIAL, transacciones := [] }
    some ({ n with cuentas := cuentas1 },
      [.sendYes n.id_nodo id_cuenta id_transaccion id_cafetera])
  | .execute _ id_cuenta id_transaccion id_cafetera =>
    match alookup n.transacciones_resta id_transaccion with
    | none => none
    | some txn =>
      match alookup n.cuentas id_cuenta with
      | none => none
      | some cuenta =>
        if cuenta.saldo < txn.cantidad then
          some ({ n with
              transacciones_resta :=
                amodify n.transacciones_resta id_transaccion
                  (fun t => { t with state := .Abort }) },
            [.toCafetera txn.socket false,
             .sendAbort n.id_nodo id_cuenta id_transaccion id_cafetera])
        else
          some ({ n with
              transacciones_resta :=
                amodify n.transacciones_resta id_transaccion
                  (fun t => { t with state := .Locked }) },
            [.toCafetera txn.socket true])
  | .commitMsg _ id_cuenta id_transaccion tipo cantidad id_cafetera =>
    let cuentas0 :=
      match alookup n.cuentas id_cuenta with
      | some _ => n.cuentas
      | none =>
        aset n.cuentas id_cuenta
          { blocked := false, saldo := SALDO_INICIAL, transacciones := [] }
    if tipo = CommitType.SUMA then
      some ({ n with
          cuentas := amodify cuentas0 id_cuenta
            (fun c => { c with blocked := false, saldo := addU32 c.saldo cantidad }),
          transacciones_suma := amodify n.transacciones_suma id_transaccion
            (fun t => { t with state := .Accepted }) },
        [.sendOk n.id_nodo id_cuenta id_transaccion id_cafetera])
    else
      let outsMachine : List NodoOutput :=
        match alookup n.transacciones_resta id_transaccion with
        | some t => [.toCafetera t.socket true]
        | none => []
      some ({ n with
          cuentas := amodify cuentas0 id_cuenta
            (fun c => { c with blocked := false, saldo := subU32 c.saldo cantidad }),
          transacciones_resta := amodify n.transacciones_resta id_transaccion
            (fun t => { t with state := .Accepted }) },
        outsMachine ++ [.sendOk n.id_nodo id_cuenta id_transaccion id_cafetera])
  | .abortMsg _ id_cuenta id_transaccion id_cafetera =>
    match alookup n.cuentas id_cuenta with
    | none => none
    | some _ =>
      some ({ n with
          cuentas := amodify n.cuentas id_cuenta (fun c => { c with blocked := false }) },
        [.sendOkAbort n.id_nodo id_cuenta id_transaccion id_cafetera])

/- ===================================================================
   Assignment 2: the Coordinador actor of server/src/coordinador.rs.
   The three HashMaps become association lists; the `addr_nodos` map is
   kept as its key set (the handler addresses are external); `get_mut`
   mutations are `amodify`; vector pushes append; a `Vec::remove(0)` on
   an empty vector and the `.expect` on a missing handler address are
   panics, modelled `none`.  The messages the coordinator broadcasts
   are external sends and are dropped; the state effect of the Abort
   messages the DisconnectNodo handler sends to itself (status already
   Abort) is the identity, and runs may deliver them explicitly.
   =================================================================== -/

/-- Coordinator-side `TransactionState` of coordinador.rs. -/
inductive TransactionStateCoord where
  | Uninitialized
  | Wait
  | Execute
  | Commit
  | Abort
  | Done
deriving DecidableEq, Repr

/-- `TransactionCoordinator` of coordinador.rs. -/
structure TransactionCoordinator where
  status : TransactionStateCoord
  yes_nodos : List ℕ
  ok_nodos : List ℕ
  from_id_nodo : ℕ
  id_cuenta : ℕ
  tipo : CommitType
  id_cafetera : ℕ
deriving DecidableEq, Repr

/-- The `Coordinador` actor state. -/
structure Coordinador where
  addr_nodos : List ℕ
  transacciones : List (ℕ × TransactionCoordinator)
  cola : List (ℕ × List ℕ)
  conectado : Bool
deriving DecidableEq, Repr

/-- `HashMap::insert` on the follower table seen as a key set. -/
def addAddr (l : List ℕ) (k : ℕ) : List ℕ :=
  if k ∈ l then l else k :: l

/-- The messages the coordinator handles (fields as in mensaje.rs). -/
inductive CoordMsg where
  | addNodo (id_nodo : ℕ)
  | starter (id_nodo id_cuenta id_transaccion id_cafetera : ℕ)
  | yes (id_nodo id_cuenta id_transaccion id_cafetera : ℕ)
  | finish (id_nodo id_cuenta id_transaccion : ℕ) (tipo : CommitType)
      (cantidad id_cafetera : ℕ)
  | okey (id_nodo id_cuenta id_transaccion id_cafetera : ℕ)
  | okeyAbort (id_nodo id_cuenta id_transaccion id_cafetera : ℕ)
  | abortMsg (id_nodo id_cuenta id_transaccion id_cafetera : ℕ)
  | disconnectNodo (id_nodo : ℕ)
  | disconnect
  | setState (estado : Bool)
  | pingCord (id_nodo : ℕ)
deriving DecidableEq, Repr

/-- The state of `Coordinador` as created in `start_listener`. -/
def initialCoordinador : Coordinador :=
  { addr_nodos := [], transacciones := [], cola := [], conectado := true }

/-- One handler invocation of the Coordinador actor, translated clause by
clause from coordinador.rs; `none` is a panic. -/
def coordStep (s : Coordinador) (m : CoordMsg) : Option Coordinador :=
  match m with
  | .addNodo id_nodo =>
    some { s with addr_nodos := addAddr s.addr_nodos id_nodo }
  | .starter id_nodo id_cuenta id_transaccion id_cafetera =>
    if !s.conectado then some s
    else
      let trans1 := aset s.transacciones id_transaccion
        { status := .Uninitialized, yes_nodos := [], ok_nodos := [],
          from_id_nodo := id_nodo, id_cuenta := id_cuenta,
          tipo := .RESTA, id_cafetera := id_cafetera }
      match alookup s.cola id_cuenta with
      | some cuenta =>
        let cola1 := amodify s.cola id_cuenta (fun q => q ++ [id_transaccion])
        if cuenta.length + 1 > 1 then
          some { s with transacciones := trans1, cola := cola1 }
        else
          some { s with
            transacciones := amodify trans1 id_transaccion
              (fun t => { t with status := .Wait }),
            cola := cola1 }
      | none =>
        some { s with
          transacciones := amodify trans1 id_transaccion
            (fun t => { t with status := .Wait }),
          cola := aset s.cola id_cuenta [id_transaccion] }
  | .yes id_nodo _ id_transaccion _ =>
    if !s.conectado then some s
    else
      match alookup s.transacciones id_transaccion with
      | none => some s
      | some txn =>
        let trans1 := amodify s.transacciones id_transaccion
          (fun t => { t with yes_nodos := t.yes_nodos ++ [id_nodo] })
        if txn.yes_nodos.length + 1 = s.addr_nodos.length then
          if txn.from_id_nodo ∈ s.addr_nodos then
            some { s with
              transacciones :=
                amodify trans1 id_transaccion (fun t => { t with status := .Execute }) }
          else none
        else some { s with transacciones := trans1 }
  | .finish id_nodo id_cuenta id_transaccion tipo _ id_cafetera =>
    if !s.conectado then some s
    else
      let trans0 :=
        if tipo = CommitType.SUMA then
          aset s.transacciones id_transaccion
            { status := .Wait, yes_nodos := [], ok_nodos := [],
              from_id_nodo := id_nodo, id_cuenta := id_cuenta,
              tipo := .SUMA, id_cafetera := id_cafetera }
        else s.transacciones
      some { s with
        transacciones :=
          amodify trans0 id_transaccion (fun t => { t with status := .Commit }) }
  | .okey id_nodo _ id_transaccion _ =>
    if !s.conectado then some s
    else
      match alookup s.transacciones id_transaccion with
      | none => some s
      | some txn =>
        let trans1 := amodify s.transacciones id_transaccion
          (fun t => { t with ok_nodos := t.ok_nodos ++ [id_nodo] })
        if txn.ok_nodos.length + 1 = s.addr_nodos.length then
          let trans2 := amodify trans1 id_transaccion
            (fun t => { t with status := .Done, ok_nodos := [] })
          if txn.tipo = CommitType.SUMA then
            some { s with transacciones := trans2 }
          else
            match alookup s.cola txn.id_cuenta with
            | none => some { s with transacciones := trans2 }
            | some pendientes =>
              match pendientes with
              | [] => none
              | _ :: tail =>
                let cola1 := amodify s.cola txn.id_cuenta (fun _ => tail)
                match tail with
                | [] => some { s with transacciones := trans2, cola := cola1 }
                | next :: _ =>
                  match alookup trans2 next with
                  | none => some { s with transacciones := trans2, cola := cola1 }
                  | some _ =>
                    some { s with
                      transacciones := amodify trans2 next
                        (fun t => { t with status := .Wait }),
                      cola := cola1 }
        else some { s with transacciones := trans1 }
  | .okeyAbort id_nodo _ id_transaccion _ =>
    if !s.conectado then some s
    else
      match alookup s.transacciones id_transaccion with
      | none => some s
      | some txn =>
        let trans1 := amodify s.transacciones id_transaccion
          (fun t => { t with ok_nodos := t.ok_nodos ++ [id_nodo] })
        if txn.ok_nodos.length + 1 = s.addr_nodos.length then
          let trans2 := amodify trans1 id_transaccion
            (fun t => { t with status := .Abort, ok_nodos := [] })
          match alookup s.cola txn.id_cuenta with
          | none => some { s with transacciones := trans2 }
          | some pendientes =>
            match pendientes with
            | [] => none
            | _ :: tail =>
              let cola1 := amodify s.cola txn.id_cuenta (fun _ => tail)
              match tail with
              | [] => some { s with transacciones := trans2, cola := cola1 }
              | next :: _ =>
                match alookup trans2 next with
                | none => some { s with transacciones := trans2, cola := cola1 }
                | some _ =>
                  some { s with
                    transacciones := amodify trans2 next
                      (fun t => { t with status := .Wait }),
                    cola := cola1 }
        else some { s with transacciones := trans1 }
  | .abortMsg _ _ id_transaccion _ =>
    if !s.conectado then some s
    else some { s with
      transacciones :=
        amodify s.transacciones id_transaccion (fun t => { t with status := .Abort }) }
  | .disconnectNodo id_nodo =>
    if !s.conectado then some s
    else some { s with
      addr_nodos := s.addr_nodos.filter (fun i => i ≠ id_nodo),
      transacciones := s.transacciones.map (fun p =>
        if p.2.from_id_nodo = id_nodo ∧ p.2.status ≠ TransactionStateCoord.Abort ∧
            p.2.status ≠ TransactionStateCoord.Done
        then (p.1, { p.2 with status := TransactionStateCoord.Abort }) else p) }
  | .disconnect =>
    some { addr_nodos := [], transacciones := [], cola := [], conectado := false }
  | .setState estado => some { s with conectado := estado }
  | .pingCord _ => some s

/-- A run of the coordinator over a list of delivered messages. -/
def coordRun (s : Coordinador) : List CoordMsg → Option Coordinador
  | [] => some s
  | m :: ms =>
    match coordStep s m with
    | none => none
    | some s1 => coordRun s1 ms

/-- Protocol-consistency of a delivered message: a Starter carries a fresh
transaction id; follower responses answer what the coordinator sent for a
transaction in the matching phase (Yes answers a Prepare of the Wait phase,
a Deduct Finish comes from the originator after Execute, a Credit Finish is
fresh, Ok answers a Commit broadcast, OkAbort answers an Abort broadcast
whose round is still open — the transaction is still queued — and Abort
arrives from the originator while the transaction is in Wait or Execute).
Follower-disconnects and operator disconnects are excluded. -/
def coordGuard (s : Coordinador) (m : CoordMsg) : Prop :=
  match m with
  | .addNodo _ => True
  | .starter _ _ id_transaccion _ => alookup s.transacciones id_transaccion = none
  | .yes _ _ id_transaccion _ =>
    ∃ t, alookup s.transacciones id_transaccion = some t ∧
      t.status = TransactionStateCoord.Wait
  | .finish _ _ id_transaccion tipo _ _ =>
    (tipo = CommitType.RESTA ∧
      ∃ t, alookup s.transacciones id_transaccion = some t ∧
        t.status = TransactionStateCoord.Execute) ∨
    (tipo = CommitType.SUMA ∧ alookup s.transacciones id_transaccion = none)
  | .okey _ _ id_transaccion _ =>
    ∃ t, alookup s.transacciones id_transaccion = some t ∧
      t.status = TransactionStateCoord.Commit
  | .okeyAbort _ _ id_transaccion _ =>
    ∃ t, alookup s.transacciones id_transaccion = some t ∧
      t.status = TransactionStateCoord.Abort ∧
      ∃ q, alookup s.cola t.id_cuenta = some q ∧ id_transaccion ∈ q
  | .abortMsg _ _ id_transaccion _ =>
    ∃ t, alookup s.transacciones id_transaccion = some t ∧
      (t.status = TransactionStateCoord.Wait ∨
        t.status = TransactionStateCoord.Execute)
  | _ => False

/-- Coordinator states reachable from start by protocol-consistent
messages. -/
inductive ReachableCoord : Coordinador → Prop where
  | init : ReachableCoord initialCoordinador
  | step (s : Coordinador) (m : CoordMsg) (s' : Coordinador) :
      ReachableCoord s → coordGuard s m → coordStep s m = some s' →
      ReachableCoord s'

/-- A transaction currently driving 2PC on its account. -/
def isActive (t : TransactionCoordinator) : Prop :=
  t.status = TransactionStateCoord.Wait ∨
  t.status = TransactionStateCoord.Execute ∨
  t.status = TransactionStateCoord.Commit

/-- The inductive invariant of the coordinator: queued ids belong to Deduct
transactions of that account, queues have no duplicates, queued non-head
transactions are dormant (Uninitialized), every Deduct in an active phase is
the head of its account's queue, an aborted Deduct still queued is the head,
Credits are only ever in Commit or Done, and every transaction is a Credit
or a Deduct. -/
structure CoordInv (s : Coordinador) : Prop where
  qmem : ∀ A q id, alookup s.cola A = some q → id ∈ q →
    ∃ t, alookup s.transacciones id = some t ∧ t.id_cuenta = A ∧
      t.tipo = CommitType.RESTA
  qnodup : ∀ A q, alookup s.cola A = some q → q.Nodup
  qtail : ∀ A q id, alookup s.cola A = some q → id ∈ q.tail →
    ∀ t, alookup s.transacciones id = some t →
      t.status = TransactionStateCoord.Uninitialized
  active_head : ∀ id t, alookup s.transacciones id = some t →
    t.tipo = CommitType.RESTA → isActive t →
    ∃ q, alookup s.cola t.id_cuenta = some q ∧ q.head? = some id
  abort_head : ∀ id t, alookup s.transacciones id = some t →
    t.status = TransactionStateCoord.Abort →
    ∀ q, alookup s.cola t.id_cuenta = some q → id ∈ q → q.head? = some id
  suma_status : ∀ id t, alookup s.transacciones id = some t →
    t.tipo = CommitType.SUMA →
    t.status = TransactionStateCoord.Commit ∨
      t.status = TransactionStateCoord.Done
  tipo_known : ∀ id t, alookup s.transacciones id = some t →
    t.tipo = CommitType.RESTA ∨ t.tipo = CommitType.SUMA

/-- The invariant holds initially. -/
lemma coordInv_init : CoordInv initialCoordinador := by
  constructor <;> intro a <;> simp [initialCoordinador, alookup] at *

/-- The invariant only inspects the queues and, per transaction, the status,
account and kind: two states agreeing on those satisfy it together. -/
lemma coordInv_congr (s s' : Coordinador)
    (hcola : ∀ A, alookup s'.cola A = alookup s.cola A)
    (htr : ∀ id, (alookup s'.transacciones id).map
        (fun t => (t.status, t.id_cuenta, t.tipo))
      = (alookup s.transacciones id).map (fun t => (t.status, t.id_cuenta, t.tipo)))
    (hInv : CoordInv s) : CoordInv s' := by
  have fields : ∀ id t', alookup s'.transacciones id = some t' →
      ∃ t, alookup s.transacciones id = some t ∧ t.status = t'.status ∧
        t.id_cuenta = t'.id_cuenta ∧ t.tipo = t'.tipo := by
    intro id t' h'
    have hmap := htr id
    rw [h'] at hmap
    rcases h : alookup s.transacciones id with _ | t
    · rw [h] at hmap
      exact absurd hmap (by simp)
    · rw [h] at hmap
      simp only [Option.map_some', Option.some.injEq, Prod.mk.injEq] at hmap
      exact ⟨t, rfl, hmap.1.symm, hmap.2.1.symm, hmap.2.2.symm⟩
  have fields' : ∀ id t, alookup s.transacciones id = some t →
      ∃ t', alookup s'.transacciones id = some t' ∧ t'.status = t.status ∧
        t'.id_cuenta = t.id_cuenta ∧ t'.tipo = t.tipo := by
    intro id t h
    have hmap := htr id
    rw [h] at hmap
    rcases h' : alookup s'.transacciones id with _ | t'
    · rw [h'] at hmap
      exact absurd hmap (by simp)
    · rw [h'] at hmap
      simp only [Option.map_some', Option.some.injEq, Prod.mk.injEq] at hmap
      exact ⟨t', rfl, hmap.1, hmap.2.1, hmap.2.2⟩
  constructor
  · intro A q id hq hid
    rw [hcola] at hq
    obtain ⟨t, ht, h1, h2⟩ := hInv.qmem A q id hq hid
    obtain ⟨t', ht', hs1, hs2, hs3⟩ := fields' id t ht
    exact ⟨t', ht', by rw [hs2, h1], by rw [hs3, h2]⟩
  · intro A q hq
    rw [hcola] at hq
    exact hInv.qnodup A q hq
  · intro A q id hq hid t' ht'
    rw [hcola] at hq
    obtain ⟨t, ht, hs1, _, _⟩ := fields id t' ht'
    rw [← hs1]
    exact hInv.qtail A q id hq hid t ht
  · intro id t' ht' htipo hact
    obtain ⟨t, ht, hs1, hs2, hs3⟩ := fields id t' ht'
    have hq := hInv.active_head id t ht (by rw [hs3, htipo])
      (by unfold isActive at hact ⊢; rw [hs1]; exact hact)
    rw [hs2] at hq
    obtain ⟨q, hq1, hq2⟩ := hq
    exact ⟨q, by rw [hcola]; exact hq1, hq2⟩
  · intro id t' ht' hst q hq hid
    obtain ⟨t, ht, hs1, hs2, _⟩ := fields id t' ht'
    rw [hcola] at hq
    rw [← hs2] at hq
    exact hInv.abort_head id t ht (by rw [hs1, hst]) q hq hid
  · intro id t' ht' htipo
    obtain ⟨t, ht, hs1, _, hs3⟩ := fields id t' ht'
    rw [← hs1]
    exact hInv.suma_status id t ht (by rw [hs3, htipo])
  · intro id t' ht'
    obtain ⟨t, ht, _, _, hs3⟩ := fields id t' ht'
    rw [← hs3]
    exact hInv.tipo_known id t ht

/-- Two option-valued transactions with equal (status, account, kind)
projections: the second determines a matching first. -/
lemma projBridge {o o2 : Option TransactionCoordinator}
    (h : o2.map (fun u => (u.status, u.id_cuenta, u.tipo))
       = o.map (fun u => (u.status, u.id_cuenta, u.tipo)))
    {u : TransactionCoordinator} (hu : o = some u) :
    ∃ u2, o2 = some u2 ∧ u2.status = u.status ∧ u2.id_cuenta = u.id_cuenta ∧
      u2.tipo = u.tipo := by
  subst hu
  rcases o2 with _ | u2
  · simp at h
  · simp only [Option.map_some', Option.some.injEq, Prod.mk.injEq] at h
    exact ⟨u2, rfl, h.1, h.2.1, h.2.2⟩

/-- The head of a list survives appending on the right. -/
lemma head_append_left {α : Type} (q r : List α) (a : α) (h : q.head? = some a) :
    (q ++ r).head? = some a := by
  cases q with
  | nil => simp at h
  | cons x xs => simpa using h

/-- Bumping one Deduct transaction from one active status to another (and
arbitrary vote-list changes) preserves the invariant. -/
lemma coordInv_bump (s s2 : Coordinador) (tid : ℕ) (t t2 : TransactionCoordinator)
    (hcola : ∀ A, alookup s2.cola A = alookup s.cola A)
    (ht : alookup s.transacciones tid = some t)
    (ht2 : alookup s2.transacciones tid = some t2)
    (hother : ∀ k, k ≠ tid →
      (alookup s2.transacciones k).map (fun u => (u.status, u.id_cuenta, u.tipo))
        = (alookup s.transacciones k).map (fun u => (u.status, u.id_cuenta, u.tipo)))
    (hacc : t2.id_cuenta = t.id_cuenta) (htipo : t2.tipo = t.tipo)
    (htipoR : t.tipo = CommitType.RESTA)
    (hact : isActive t) (hact2 : isActive t2)
    (hInv : CoordInv s) : CoordInv s2 := by
  have hnotun : t.status ≠ TransactionStateCoord.Uninitialized := by
    rcases hact with h | h | h <;> rw [h] <;> decide
  constructor
  · intro A q idq hq hidq
    rw [hcola] at hq
    obtain ⟨u, hu, hu1, hu2⟩ := hInv.qmem A q idq hq hidq
    by_cases hk : idq = tid
    · subst hk
      have hut : u = t := Option.some.inj (hu.symm.trans ht)
      refine ⟨t2, ht2, ?_, ?_⟩
      · rw [hacc, ← hut]
        exact hu1
      · rw [htipo, ← hut]
        exact hu2
    · obtain ⟨u2, hu2l, _, h2, h3⟩ := projBridge (hother idq hk) hu
      exact ⟨u2, hu2l, h2.trans hu1, h3.trans hu2⟩
  · intro A q hq
    rw [hcola] at hq
    exact hInv.qnodup A q hq
  · intro A q idq hq hidq u2 hu2l
    rw [hcola] at hq
    by_cases hk : idq = tid
    · subst hk
      exact absurd (hInv.qtail A q idq hq hidq t ht) hnotun
    · obtain ⟨u, hu, h1, _, _⟩ := projBridge ((hother idq hk).symm) hu2l
      rw [← h1]
      exact hInv.qtail A q idq hq hidq u hu
  · intro id2 u2 hu2l hR hactu
    by_cases hk : id2 = tid
    · subst hk
      have he : u2 = t2 := Option.some.inj (hu2l.symm.trans ht2)
      subst he
      obtain ⟨q, hq, hh⟩ := hInv.active_head id2 t ht htipoR hact
      refine ⟨q, ?_, hh⟩
      rw [hcola, hacc]
      exact hq
    · obtain ⟨u, hu, h1, h2, h3⟩ := projBridge ((hother id2 hk).symm) hu2l
      obtain ⟨q, hq, hh⟩ := hInv.active_head id2 u hu (h3.trans hR)
        (by unfold isActive at hactu ⊢; rw [h1]; exact hactu)
      refine ⟨q, ?_, hh⟩
      rw [hcola, ← h2]
      exact hq
  · intro id2 u2 hu2l hst q hq hidq
    rw [hcola] at hq
    by_cases hk : id2 = tid
    · subst hk
      have he : u2 = t2 := Option.some.inj (hu2l.symm.trans ht2)
      subst he
      rcases hact2 with h | h | h <;> rw [hst] at h <;> exact absurd h (by decide)
    · obtain ⟨u, hu, h1, h2, _⟩ := projBridge ((hother id2 hk).symm) hu2l
      rw [← h2] at hq
      exact hInv.abort_head id2 u hu (h1.trans hst) q hq hidq
  · intro id2 u2 hu2l hS
    by_cases hk : id2 = tid
    · subst hk
      have he : u2 = t2 := Option.some.inj (hu2l.symm.trans ht2)
      subst he
      rw [htipo, htipoR] at hS
      exact absurd hS (by decide)
    · obtain ⟨u, hu, h1, _, h3⟩ := projBridge ((hother id2 hk).symm) hu2l
      rw [← h1]
      exact hInv.suma_status id2 u hu (h3.trans hS)
  · intro id2 u2 hu2l
    by_cases hk : id2 = tid
    · subst hk
      have he : u2 = t2 := Option.some.inj (hu2l.symm.trans ht2)
      subst he
      rw [htipo]
      exact Or.inl htipoR
    · obtain ⟨u, hu, _, _, h3⟩ := projBridge ((hother id2 hk).symm) hu2l
      rw [← h3]
      exact hInv.tipo_known id2 u hu

/-- A protocol-consistent Abort from the originator preserves the invariant. -/
lemma coordInv_step_abortMsg (s s2 : Coordinador) (a b c d : ℕ)
    (hInv : CoordInv s)
    (hg : coordGuard s (CoordMsg.abortMsg a b c d))
    (hstep : coordStep s (CoordMsg.abortMsg a b c d) = some s2) : CoordInv s2 := by
  obtain ⟨t, htl, hWE⟩ := hg
  cases hc : s.conectado with
  | false =>
    simp [coordStep, hc] at hstep
    subst hstep
    exact hInv
  | true =>
    simp [coordStep, hc] at hstep
    have htr2 : s2.transacciones
        = amodify s.transacciones c
            (fun u => { u with status := TransactionStateCoord.Abort }) := by
      rw [← hstep]
    have hcol2 : s2.cola = s.cola := by
      rw [← hstep]
    have htR : t.tipo = CommitType.RESTA := by
      rcases hInv.tipo_known c t htl with h | h
      · exact h
      · rcases hInv.suma_status c t htl h with h2 | h2 <;>
          rcases hWE with h3 | h3 <;> rw [h3] at h2 <;> exact absurd h2 (by decide)
    have hact : isActive t := by
      rcases hWE with h | h
      · exact Or.inl h
      · exact Or.inr (Or.inl h)
    obtain ⟨q0, hq0, hh0⟩ := hInv.active_head c t htl htR hact
    have ht2 : alookup s2.transacciones c
        = some { t with status := TransactionStateCoord.Abort } := by
      rw [htr2, alookup_amodify, if_pos rfl, htl]
      rfl
    have hoth : ∀ k, k ≠ c → alookup s2.transacciones k = alookup s.transacciones k := by
      intro k hk
      rw [htr2, alookup_amodify, if_neg hk]
    constructor
    · intro A q idq hq hidq
      rw [hcol2] at hq
      obtain ⟨u, hu, hu1, hu2⟩ := hInv.qmem A q idq hq hidq
      by_cases hk : idq = c
      · subst hk
        have hut : u = t := Option.some.inj (hu.symm.trans htl)
        refine ⟨{ t with status := TransactionStateCoord.Abort }, ht2, ?_, ?_⟩
        · show t.id_cuenta = A
          rw [← hut]
          exact hu1
        · show t.tipo = CommitType.RESTA
          rw [← hut]
          exact hu2
      · exact ⟨u, by rw [hoth idq hk]; exact hu, hu1, hu2⟩
    · intro A q hq
      rw [hcol2] at hq
      exact hInv.qnodup A q hq
    · intro A q idq hq hidq u2 hu2l
      rw [hcol2] at hq
      by_cases hk : idq = c
      · subst hk
        have h0 := hInv.qtail A q idq hq hidq t htl
        rcases hWE with h | h <;> rw [h] at h0 <;> exact absurd h0 (by decide)
      · rw [hoth idq hk] at hu2l
        exact hInv.qtail A q idq hq hidq u2 hu2l
    · intro id2 u2 hu2l hR hactu
      by_cases hk : id2 = c
      · subst hk
        have he : u2 = { t with status := TransactionStateCoord.Abort } :=
          Option.some.inj (hu2l.symm.trans ht2)
        have hstat : u2.status = TransactionStateCoord.Abort := by rw [he]
        rcases hactu with h | h | h <;> rw [hstat] at h <;> exact absurd h (by decide)
      · rw [hoth id2 hk] at hu2l
        obtain ⟨q, hq, hh⟩ := hInv.active_head id2 u2 hu2l hR hactu
        refine ⟨q, ?_, hh⟩
        rw [hcol2]
        exact hq
    · intro id2 u2 hu2l hst q hq hidq
      rw [hcol2] at hq
      by_cases hk : id2 = c
      · subst hk
        have he : u2 = { t with status := TransactionStateCoord.Abort } :=
          Option.some.inj (hu2l.symm.trans ht2)
        have hacc2 : u2.id_cuenta = t.id_cuenta := by rw [he]
        rw [hacc2] at hq
        have hqq : q = q0 := Option.some.inj (hq.symm.trans hq0)
        rw [hqq]
        exact hh0
      · rw [hoth id2 hk] at hu2l
        exact hInv.abort_head id2 u2 hu2l hst q hq hidq
    · intro id2 u2 hu2l hS
      by_cases hk : id2 = c
      · subst hk
        have he : u2 = { t with status := TransactionStateCoord.Abort } :=
          Option.some.inj (hu2l.symm.trans ht2)
        have htip2 : u2.tipo = t.tipo := by rw [he]
        rw [htip2, htR] at hS
        exact absurd hS (by decide)
      · rw [hoth id2 hk] at hu2l
        exact hInv.suma_status id2 u2 hu2l hS
    · intro id2 u2 hu2l
      by_cases hk : id2 = c
      · subst hk
        have he : u2 = { t with status := TransactionStateCoord.Abort } :=
          Option.some.inj (hu2l.symm.trans ht2)
        have htip2 : u2.tipo = t.tipo := by rw [he]
        rw [htip2]
        exact Or.inl htR
      · rw [hoth id2 hk] at hu2l
        exact hInv.tipo_known id2 u2 hu2l

/-- Registering a follower address preserves the invariant. -/
lemma coordInv_step_addNodo (s s2 : Coordinador) (a : ℕ)
    (hInv : CoordInv s)
    (hstep : coordStep s (CoordMsg.addNodo a) = some s2) : CoordInv s2 := by
  simp [coordStep] at hstep
  refine coordInv_congr s s2 ?_ ?_ hInv
  · intro A
    rw [← hstep]
  · intro k
    rw [← hstep]

/-- Inserting a fresh Deduct as the (Wait) head of a fresh or emptied
account queue preserves the invariant. -/
lemma coordInv_starter_head (s s2 : Coordinador) (b c : ℕ)
    (tW : TransactionCoordinator)
    (hInv : CoordInv s)
    (hWacc : tW.id_cuenta = b) (hWtipo : tW.tipo = CommitType.RESTA)
    (hWst : tW.status = TransactionStateCoord.Wait)
    (hlc : alookup s2.transacciones c = some tW)
    (hoth : ∀ k, k ≠ c → alookup s2.transacciones k = alookup s.transacciones k)
    (hcolb : alookup s2.cola b = some [c])
    (hcolo : ∀ A, A ≠ b → alookup s2.cola A = alookup s.cola A)
    (hfresh : alookup s.transacciones c = none)
    (hnoact : ∀ id2 u, alookup s.transacciones id2 = some u → u.id_cuenta = b →
      u.tipo = CommitType.RESTA → isActive u → False) :
    CoordInv s2 := by
  constructor
  · intro A q idq hq hidq
    by_cases hA : A = b
    · subst hA
      rw [hcolb] at hq
      have hq2 := Option.some.inj hq
      rw [← hq2] at hidq
      have hic : idq = c := by simpa using hidq
      subst hic
      exact ⟨tW, hlc, hWacc, hWtipo⟩
    · rw [hcolo A hA] at hq
      obtain ⟨u, hu, hu1, hu2⟩ := hInv.qmem A q idq hq hidq
      have hne : idq ≠ c := by
        intro h
        rw [h, hfresh] at hu
        exact Option.noConfusion hu
      exact ⟨u, by rw [hoth idq hne]; exact hu, hu1, hu2⟩
  · intro A q hq
    by_cases hA : A = b
    · subst hA
      rw [hcolb] at hq
      rw [← Option.some.inj hq]
      simp
    · rw [hcolo A hA] at hq
      exact hInv.qnodup A q hq
  · intro A q idq hq hidq u2 hu2l
    by_cases hA : A = b
    · subst hA
      rw [hcolb] at hq
      rw [← Option.some.inj hq] at hidq
      simp at hidq
    · rw [hcolo A hA] at hq
      have hne : idq ≠ c := by
        intro h
        obtain ⟨u, hu, _, _⟩ :=
          hInv.qmem A q idq hq (List.mem_of_mem_tail hidq)
        rw [h, hfresh] at hu
        exact Option.noConfusion hu
      rw [hoth idq hne] at hu2l
      exact hInv.qtail A q idq hq hidq u2 hu2l
  · intro id2 u2 hu2l hR hactu
    by_cases hk : id2 = c
    · subst hk
      have he : u2 = tW := Option.some.inj (hu2l.symm.trans hlc)
      have hacc2 : u2.id_cuenta = b := by rw [he]; exact hWacc
      exact ⟨[id2], by rw [hacc2]; exact hcolb, rfl⟩
    · rw [hoth id2 hk] at hu2l
      by_cases hA : u2.id_cuenta = b
      · exact (hnoact id2 u2 hu2l hA hR hactu).elim
      · obtain ⟨q, hq, hh⟩ := hInv.active_head id2 u2 hu2l hR hactu
        refine ⟨q, ?_, hh⟩
        rw [hcolo _ hA]
        exact hq
  · intro id2 u2 hu2l hst q hq hidq
    by_cases hk : id2 = c
    · subst hk
      have he : u2 = tW := Option.some.inj (hu2l.symm.trans hlc)
      have hstat : u2.status = TransactionStateCoord.Wait := by rw [he]; exact hWst
      exact absurd (hstat.symm.trans hst) (by decide)
    · by_cases hA : u2.id_cuenta = b
      · rw [hA, hcolb] at hq
        rw [← Option.some.inj hq] at hidq
        have : id2 = c := by simpa using hidq
        exact absurd this hk
      · rw [hcolo _ hA] at hq
        rw [hoth id2 hk] at hu2l
        exact hInv.abort_head id2 u2 hu2l hst q hq hidq
  · intro id2 u2 hu2l hS
    by_cases hk : id2 = c
    · subst hk
      have he : u2 = tW := Option.some.inj (hu2l.symm.trans hlc)
      have htip2 : u2.tipo = CommitType.RESTA := by rw [he]; exact hWtipo
      exact absurd (htip2.symm.trans hS) (by decide)
    · rw [hoth id2 hk] at hu2l
      exact hInv.suma_status id2 u2 hu2l hS
  · intro id2 u2 hu2l
    by_cases hk : id2 = c
    · subst hk
      have he : u2 = tW := Option.some.inj (hu2l.symm.trans hlc)
      have htip2 : u2.tipo = CommitType.RESTA := by rw [he]; exact hWtipo
      exact Or.inl htip2
    · rw [hoth id2 hk] at hu2l
      exact hInv.tipo_known id2 u2 hu2l

/-- A Starter with a fresh transaction id preserves the invariant. -/
lemma coordInv_step_starter (s s2 : Coordinador) (a b c d : ℕ)
    (hInv : CoordInv s)
    (hg : coordGuard s (CoordMsg.starter a b c d))
    (hstep : coordStep s (CoordMsg.starter a b c d) = some s2) : CoordInv s2 := by
  have hfresh : alookup s.transacciones c = none := hg
  cases hc : s.conectado with
  | false =>
    simp [coordStep, hc] at hstep
    subst hstep
    exact hInv
  | true =>
    simp [coordStep, hc] at hstep
    rcases hqb : alookup s.cola b with _ | cuenta
    · simp only [hqb] at hstep
      have hstep2 := Option.some.inj hstep
      have htr2 : s2.transacciones
          = amodify
              (aset s.transacciones c
                { status := TransactionStateCoord.Uninitialized, yes_nodos := [],
                  ok_nodos := [], from_id_nodo := a, id_cuenta := b,
                  tipo := CommitType.RESTA, id_cafetera := d })
              c
              (fun t =>
                { status := TransactionStateCoord.Wait, yes_nodos := t.yes_nodos,
                  ok_nodos := t.ok_nodos, from_id_nodo := t.from_id_nodo,
                  id_cuenta := t.id_cuenta, tipo := t.tipo,
                  id_cafetera := t.id_cafetera }) := by
        rw [← hstep2]
      have hcol2 : s2.cola = aset s.cola b [c] := by
        rw [← hstep2]
      refine coordInv_starter_head s s2 b c
        { status := TransactionStateCoord.Wait, yes_nodos := [], ok_nodos := [],
          from_id_nodo := a, id_cuenta := b, tipo := CommitType.RESTA,
          id_cafetera := d }
        hInv rfl rfl rfl ?_ ?_ ?_ ?_ hfresh ?_
      · rw [htr2, alookup_amodify, if_pos rfl, alookup_aset, if_pos rfl]
        rfl
      · intro k hk
        rw [htr2, alookup_amodify, if_neg hk, alookup_aset, if_neg hk]
      · rw [hcol2, alookup_aset, if_pos rfl]
      · intro A hA
        rw [hcol2, alookup_aset, if_neg hA]
      · intro id2 u hu hA hR hactu
        obtain ⟨q, hq, hh⟩ := hInv.active_head id2 u hu hR hactu
        rw [hA, hqb] at hq
        exact Option.noConfusion hq
    · rcases cuenta with _ | ⟨e0, erest⟩
      · simp only [hqb] at hstep
        rw [if_neg (by decide)] at hstep
        have hstep2 := Option.some.inj hstep
        have htr2 : s2.transacciones
            = amodify
                (aset s.transacciones c
                  { status := TransactionStateCoord.Uninitialized, yes_nodos := [],
                    ok_nodos := [], from_id_nodo := a, id_cuenta := b,
                    tipo := CommitType.RESTA, id_cafetera := d })
                c
                (fun t =>
                  { status := TransactionStateCoord.Wait, yes_nodos := t.yes_nodos,
                    ok_nodos := t.ok_nodos, from_id_nodo := t.from_id_nodo,
                    id_cuenta := t.id_cuenta, tipo := t.tipo,
                    id_cafetera := t.id_cafetera }) := by
          rw [← hstep2]
        have hcol2 : s2.cola = amodify s.cola b (fun q => q ++ [c]) := by
          rw [← hstep2]
        refine coordInv_starter_head s s2 b c
          { status := TransactionStateCoord.Wait, yes_nodos := [], ok_nodos := [],
            from_id_nodo := a, id_cuenta := b, tipo := CommitType.RESTA,
            id_cafetera := d }
          hInv rfl rfl rfl ?_ ?_ ?_ ?_ hfresh ?_
        · rw [htr2, alookup_amodify, if_pos rfl, alookup_aset, if_pos rfl]
          rfl
        · intro k hk
          rw [htr2, alookup_amodify, if_neg hk, alookup_aset, if_neg hk]
        · rw [hcol2, alookup_amodify, if_pos rfl, hqb]
          rfl
        · intro A hA
          rw [hcol2, alookup_amodify, if_neg hA]
        · intro id2 u hu hA hR hactu
          obtain ⟨q, hq, hh⟩ := hInv.active_head id2 u hu hR hactu
          rw [hA, hqb] at hq
          rw [← Option.some.inj hq] at hh
          exact Option.noConfusion hh
      · simp only [hqb] at hstep
        rw [if_pos (by simp)] at hstep
        have hstep2 := Option.some.inj hstep
        have htr2 : s2.transacciones
            = aset s.transacciones c
                { status := TransactionStateCoord.Uninitialized, yes_nodos := [],
                  ok_nodos := [], from_id_nodo := a, id_cuenta := b,
                  tipo := CommitType.RESTA, id_cafetera := d } := by
          rw [← hstep2]
        have hcol2 : s2.cola = amodify s.cola b (fun q => q ++ [c]) := by
          rw [← hstep2]
        have hlc : alookup s2.transacciones c
            = some
              { status := TransactionStateCoord.Uninitialized, yes_nodos := [],
                ok_nodos := [], from_id_nodo := a, id_cuenta := b,
                tipo := CommitType.RESTA, id_cafetera := d } := by
          rw [htr2, alookup_aset, if_pos rfl]
        have hoth : ∀ k, k ≠ c →
            alookup s2.transacciones k = alookup s.transacciones k := by
          intro k hk
          rw [htr2, alookup_aset, if_neg hk]
        have hcolb : alookup s2.cola b = some ((e0 :: erest) ++ [c]) := by
          rw [hcol2, alookup_amodify, if_pos rfl, hqb]
          rfl
        have hcolo : ∀ A, A ≠ b → alookup s2.cola A = alookup s.cola A := by
          intro A hA
          rw [hcol2, alookup_amodify, if_neg hA]
        have hqc : ∀ A q, alookup s.cola A = some q → c ∉ q := by
          intro A q hqA hmem
          obtain ⟨u, hu, _, _⟩ := hInv.qmem A q c hqA hmem
          rw [hfresh] at hu
          exact Option.noConfusion hu
        constructor
        · intro A q idq hq hidq
          by_cases hA : A = b
          · subst hA
            rw [hcolb] at hq
            rw [← Option.some.inj hq] at hidq
            rw [List.mem_append] at hidq
            rcases hidq with hid | hid
            · obtain ⟨u, hu, hu1, hu2⟩ := hInv.qmem A (e0 :: erest) idq hqb hid
              have hne : idq ≠ c := by
                intro h
                rw [h, hfresh] at hu
                exact Option.noConfusion hu
              exact ⟨u, by rw [hoth idq hne]; exact hu, hu1, hu2⟩
            · have hic : idq = c := by simpa using hid
              subst hic
              exact ⟨_, hlc, rfl, rfl⟩
          · rw [hcolo A hA] at hq
            obtain ⟨u, hu, hu1, hu2⟩ := hInv.qmem A q idq hq hidq
            have hne : idq ≠ c := by
              intro h
              rw [h, hfresh] at hu
              exact Option.noConfusion hu
            exact ⟨u, by rw [hoth idq hne]; exact hu, hu1, hu2⟩
        · intro A q hq
          by_cases hA : A = b
          · subst hA
            rw [hcolb] at hq
            rw [← Option.some.inj hq]
            refine List.Nodup.append (hInv.qnodup A (e0 :: erest) hqb)
              (List.nodup_singleton c) ?_
            intro x hx hxc
            have : x = c := by simpa using hxc
            exact hqc A (e0 :: erest) hqb (this ▸ hx)
          · rw [hcolo A hA] at hq
            exact hInv.qnodup A q hq
        · intro A q idq hq hidq u2 hu2l
          by_cases hA : A = b
          · subst hA
            rw [hcolb] at hq
            rw [← Option.some.inj hq] at hidq
            rw [List.cons_append] at hidq
            simp only [List.tail_cons] at hidq
            rw [List.mem_append] at hidq
            rcases hidq with hid | hid
            · have hid2 : idq ∈ (e0 :: erest).tail := hid
              obtain ⟨u, hu, _, _⟩ := hInv.qmem A (e0 :: erest) idq hqb
                (List.mem_of_mem_tail hid2)
              have hne : idq ≠ c := by
                intro h
                rw [h, hfresh] at hu
                exact Option.noConfusion hu
              rw [hoth idq hne] at hu2l
              exact hInv.qtail A (e0 :: erest) idq hqb hid2 u2 hu2l
            · have hic : idq = c := by simpa using hid
              subst hic
              have he : u2 = _ := Option.some.inj (hu2l.symm.trans hlc)
              rw [he]
          · rw [hcolo A hA] at hq
            have hne : idq ≠ c := by
              intro h
              obtain ⟨u, hu, _, _⟩ :=
                hInv.qmem A q idq hq (List.mem_of_mem_tail hidq)
              rw [h, hfresh] at hu
              exact Option.noConfusion hu
            rw [hoth idq hne] at hu2l
            exact hInv.qtail A q idq hq hidq u2 hu2l
        · intro id2 u2 hu2l hR hactu
          by_cases hk : id2 = c
          · subst hk
            have he : u2 = _ := Option.some.inj (hu2l.symm.trans hlc)
            have hstat : u2.status = TransactionStateCoord.Uninitialized := by
              rw [he]
            rcases hactu with h | h | h <;> rw [hstat] at h <;>
              exact absurd h (by decide)
          · rw [hoth id2 hk] at hu2l
            obtain ⟨q, hq, hh⟩ := hInv.active_head id2 u2 hu2l hR hactu
            by_cases hA : u2.id_cuenta = b
            · rw [hA, hqb] at hq
              have hq2 := Option.some.inj hq
              rw [← hq2] at hh
              refine ⟨(e0 :: erest) ++ [c], by rw [hA]; exact hcolb, ?_⟩
              exact head_append_left _ _ _ hh
            · refine ⟨q, ?_, hh⟩
              rw [hcolo _ hA]
              exact hq
        · intro id2 u2 hu2l hst q hq hidq
          by_cases hk : id2 = c
          · subst hk
            have he : u2 = _ := Option.some.inj (hu2l.symm.trans hlc)
            have hstat : u2.status = TransactionStateCoord.Uninitialized := by
              rw [he]
            rw [hstat] at hst
            exact absurd hst (by decide)
          · by_cases hA : u2.id_cuenta = b
            · rw [hA, hcolb] at hq
              have hq2 := Option.some.inj hq
              rw [← hq2] at hidq ⊢
              rw [List.mem_append] at hidq
              rcases hidq with hid | hid
              · rw [hoth id2 hk] at hu2l
                have hqb2 : alookup s.cola u2.id_cuenta = some (e0 :: erest) := by
                  rw [hA]
                  exact hqb
                have hh := hInv.abort_head id2 u2 hu2l hst (e0 :: erest) hqb2 hid
                exact head_append_left _ _ _ hh
              · have : id2 = c := by simpa using hid
                exact absurd this hk
            · rw [hcolo _ hA] at hq
              rw [hoth id2 hk] at hu2l
              exact hInv.abort_head id2 u2 hu2l hst q hq hidq
        · intro id2 u2 hu2l hS
          by_cases hk : id2 = c
          · subst hk
            have he : u2 = _ := Option.some.inj (hu2l.symm.trans hlc)
            have htip2 : u2.tipo = CommitType.RESTA := by rw [he]
            exact absurd (htip2.symm.trans hS) (by decide)
          · rw [hoth id2 hk] at hu2l
            exact hInv.suma_status id2 u2 hu2l hS
        · intro id2 u2 hu2l
          by_cases hk : id2 = c
          · subst hk
            have he : u2 = _ := Option.some.inj (hu2l.symm.trans hlc)
            have htip2 : u2.tipo = CommitType.RESTA := by rw [he]
            exact Or.inl htip2
          · rw [hoth id2 hk] at hu2l
            exact hInv.tipo_known id2 u2 hu2l
/-- A Yes vote for a transaction in Wait preserves the invariant. -/
lemma coordInv_step_yes (s s2 : Coordinador) (a b c d : ℕ)
    (hInv : CoordInv s)
    (hg : coordGuard s (CoordMsg.yes a b c d))
    (hstep : coordStep s (CoordMsg.yes a b c d) = some s2) : CoordInv s2 := by
  obtain ⟨t, htl, htW⟩ := hg
  cases hc : s.conectado with
  | false =>
    simp [coordStep, hc] at hstep
    subst hstep
    exact hInv
  | true =>
    simp [coordStep, hc] at hstep
    simp only [htl] at hstep
    have htR : t.tipo = CommitType.RESTA := by
      rcases hInv.tipo_known c t htl with h | h
      · exact h
      · rcases hInv.suma_status c t htl h with h2 | h2 <;>
          rw [htW] at h2 <;> exact absurd h2 (by decide)
    by_cases hcnt : t.yes_nodos.length + 1 = s.addr_nodos.length
    · rw [if_pos hcnt] at hstep
      by_cases hfrom : t.from_id_nodo ∈ s.addr_nodos
      · rw [if_pos hfrom] at hstep
        have hstep2 := Option.some.inj hstep
        have htr2 : s2.transacciones
            = amodify
                (amodify s.transacciones c
                  (fun u => { u with yes_nodos := u.yes_nodos ++ [a] }))
                c
                (fun u => { u with status := TransactionStateCoord.Execute }) := by
          rw [← hstep2]
        refine coordInv_bump s s2 c t
          { t with yes_nodos := t.yes_nodos ++ [a],
                   status := TransactionStateCoord.Execute }
          (fun A => by rw [← hstep2]) htl ?_ ?_ rfl rfl htR (Or.inl htW)
          (Or.inr (Or.inl rfl)) hInv
        · rw [htr2, alookup_amodify, if_pos rfl, alookup_amodify, if_pos rfl, htl]
          rfl
        · intro k hk
          rw [htr2, alookup_amodify, if_neg hk, alookup_amodify, if_neg hk]
      · rw [if_neg hfrom] at hstep
        exact Option.noConfusion hstep
    · rw [if_neg hcnt] at hstep
      have hstep2 := Option.some.inj hstep
      have htr2 : s2.transacciones
          = amodify s.transacciones c
              (fun u => { u with yes_nodos := u.yes_nodos ++ [a] }) := by
        rw [← hstep2]
      refine coordInv_congr s s2 (fun A => by rw [← hstep2]) ?_ hInv
      intro k
      rw [htr2, alookup_amodify]
      by_cases hk : k = c
      · rw [if_pos hk, hk, htl]
        rfl
      · rw [if_neg hk]

/-- A Finish (a Deduct in Execute from its originator, or a fresh Credit)
preserves the invariant. -/
lemma coordInv_step_finish (s s2 : Coordinador) (a b c : ℕ) (tp : CommitType)
    (e f : ℕ)
    (hInv : CoordInv s)
    (hg : coordGuard s (CoordMsg.finish a b c tp e f))
    (hstep : coordStep s (CoordMsg.finish a b c tp e f) = some s2) : CoordInv s2 := by
  cases hc : s.conectado with
  | false =>
    simp [coordStep, hc] at hstep
    subst hstep
    exact hInv
  | true =>
    simp [coordStep, hc] at hstep
    rcases hg with ⟨htp, t, htl, htE⟩ | ⟨htp, hfresh⟩
    · subst htp
      rw [if_neg (by decide)] at hstep
      have hstep2 := hstep
      have htr2 : s2.transacciones
          = amodify s.transacciones c
              (fun u => { u with status := TransactionStateCoord.Commit }) := by
        rw [← hstep2]
      have htR : t.tipo = CommitType.RESTA := by
        rcases hInv.tipo_known c t htl with h | h
        · exact h
        · rcases hInv.suma_status c t htl h with h2 | h2 <;>
            rw [htE] at h2 <;> exact absurd h2 (by decide)
      refine coordInv_bump s s2 c t
        { t with status := TransactionStateCoord.Commit }
        (fun A => by rw [← hstep2]) htl ?_ ?_ rfl rfl htR (Or.inr (Or.inl htE))
        (Or.inr (Or.inr rfl)) hInv
      · rw [htr2, alookup_amodify, if_pos rfl, htl]
        rfl
      · intro k hk
        rw [htr2, alookup_amodify, if_neg hk]
    · subst htp
      rw [if_pos rfl] at hstep
      have hstep2 := hstep
      have htr2 : s2.transacciones
          = amodify
              (aset s.transacciones c
                { status := TransactionStateCoord.Wait, yes_nodos := [],
                  ok_nodos := [], from_id_nodo := a, id_cuenta := b,
                  tipo := CommitType.SUMA, id_cafetera := f })
              c
              (fun u => { u with status := TransactionStateCoord.Commit }) := by
        rw [← hstep2]
      have hcol2 : ∀ A, alookup s2.cola A = alookup s.cola A := by
        intro A
        rw [← hstep2]
      have hlc : alookup s2.transacciones c
          = some
            { status := TransactionStateCoord.Commit, yes_nodos := [],
              ok_nodos := [], from_id_nodo := a, id_cuenta := b,
              tipo := CommitType.SUMA, id_cafetera := f } := by
        rw [htr2, alookup_amodify, if_pos rfl, alookup_aset, if_pos rfl]
        rfl
      have hoth : ∀ k, k ≠ c →
          alookup s2.transacciones k = alookup s.transacciones k := by
        intro k hk
        rw [htr2, alookup_amodify, if_neg hk, alookup_aset, if_neg hk]
      constructor
      · intro A q idq hq hidq
        rw [hcol2] at hq
        obtain ⟨u, hu, hu1, hu2⟩ := hInv.qmem A q idq hq hidq
        have hne : idq ≠ c := by
          intro h
          rw [h, hfresh] at hu
          exact Option.noConfusion hu
        exact ⟨u, by rw [hoth idq hne]; exact hu, hu1, hu2⟩
      · intro A q hq
        rw [hcol2] at hq
        exact hInv.qnodup A q hq
      · intro A q idq hq hidq u2 hu2l
        rw [hcol2] at hq
        have hne : idq ≠ c := by
          intro h
          obtain ⟨u, hu, _, _⟩ :=
            hInv.qmem A q idq hq (List.mem_of_mem_tail hidq)
          rw [h, hfresh] at hu
          exact Option.noConfusion hu
        rw [hoth idq hne] at hu2l
        exact hInv.qtail A q idq hq hidq u2 hu2l
      · intro id2 u2 hu2l hR hactu
        by_cases hk : id2 = c
        · subst hk
          have he : u2 = _ := Option.some.inj (hu2l.symm.trans hlc)
          have htip2 : u2.tipo = CommitType.SUMA := by rw [he]
          rw [htip2] at hR
          exact absurd hR (by decide)
        · rw [hoth id2 hk] at hu2l
          obtain ⟨q, hq, hh⟩ := hInv.active_head id2 u2 hu2l hR hactu
          refine ⟨q, ?_, hh⟩
          rw [hcol2]
          exact hq
      · intro id2 u2 hu2l hst q hq hidq
        rw [hcol2] at hq
        by_cases hk : id2 = c
        · subst hk
          have he : u2 = _ := Option.some.inj (hu2l.symm.trans hlc)
          have hstat : u2.status = TransactionStateCoord.Commit := by rw [he]
          exact absurd (hstat.symm.trans hst) (by decide)
        · rw [hoth id2 hk] at hu2l
          exact hInv.abort_head id2 u2 hu2l hst q hq hidq
      · intro id2 u2 hu2l hS
        by_cases hk : id2 = c
        · subst hk
          have he : u2 = _ := Option.some.inj (hu2l.symm.trans hlc)
          have hstat : u2.status = TransactionStateCoord.Commit := by rw [he]
          exact Or.inl hstat
        · rw [hoth id2 hk] at hu2l
          exact hInv.suma_status id2 u2 hu2l hS
      · intro id2 u2 hu2l
        by_cases hk : id2 = c
        · subst hk
          have he : u2 = _ := Option.some.inj (hu2l.symm.trans hlc)
          have htip2 : u2.tipo = CommitType.SUMA := by rw [he]
          exact Or.inr htip2
        · rw [hoth id2 hk] at hu2l
          exact hInv.tipo_known id2 u2 hu2l
/-- Popping the sole queued Deduct of an account (leaving the queue empty)
while its transaction moves to a terminal status preserves the invariant. -/
lemma coordInv_pop_last (s s2 : Coordinador) (acc c : ℕ)
    (txn t2 : TransactionCoordinator)
    (hInv : CoordInv s)
    (hq0 : alookup s.cola acc = some [c])
    (hcb : alookup s2.cola acc = some [])
    (hco : ∀ A, A ≠ acc → alookup s2.cola A = alookup s.cola A)
    (htc : alookup s.transacciones c = some txn)
    (htcacc : txn.id_cuenta = acc)
    (hlc : alookup s2.transacciones c = some t2)
    (hacc2 : t2.id_cuenta = acc) (htip2 : t2.tipo = CommitType.RESTA)
    (hnot2 : ¬ isActive t2)
    (hoth : ∀ k, k ≠ c → alookup s2.transacciones k = alookup s.transacciones k) :
    CoordInv s2 := by
  have hnec : ∀ A q idq, A ≠ acc → alookup s.cola A = some q → idq ∈ q →
      idq ≠ c := by
    intro A q idq hA hq hidq h
    obtain ⟨u, hu, hu1, _⟩ := hInv.qmem A q idq hq hidq
    rw [h] at hu
    have hut : u = txn := Option.some.inj (hu.symm.trans htc)
    rw [hut, htcacc] at hu1
    exact hA hu1.symm
  constructor
  · intro A q idq hq hidq
    by_cases hA : A = acc
    · rw [hA, hcb] at hq
      rw [← Option.some.inj hq] at hidq
      exact absurd hidq (List.not_mem_nil idq)
    · rw [hco A hA] at hq
      obtain ⟨u, hu, hu1, hu2⟩ := hInv.qmem A q idq hq hidq
      have hne : idq ≠ c := hnec A q idq hA hq hidq
      exact ⟨u, by rw [hoth idq hne]; exact hu, hu1, hu2⟩
  · intro A q hq
    by_cases hA : A = acc
    · rw [hA, hcb] at hq
      rw [← Option.some.inj hq]
      exact List.nodup_nil
    · rw [hco A hA] at hq
      exact hInv.qnodup A q hq
  · intro A q idq hq hidq u2 hu2l
    by_cases hA : A = acc
    · rw [hA, hcb] at hq
      rw [← Option.some.inj hq] at hidq
      exact absurd hidq (List.not_mem_nil idq)
    · rw [hco A hA] at hq
      have hne : idq ≠ c := hnec A q idq hA hq (List.mem_of_mem_tail hidq)
      rw [hoth idq hne] at hu2l
      exact hInv.qtail A q idq hq hidq u2 hu2l
  · intro id2 u2 hu2l hR hactu
    by_cases hk : id2 = c
    · rw [hk] at hu2l
      have he : u2 = t2 := Option.some.inj (hu2l.symm.trans hlc)
      rw [he] at hactu
      exact absurd hactu hnot2
    · rw [hoth id2 hk] at hu2l
      obtain ⟨q, hq, hh⟩ := hInv.active_head id2 u2 hu2l hR hactu
      by_cases hA : u2.id_cuenta = acc
      · rw [hA, hq0] at hq
        rw [← Option.some.inj hq] at hh
        have : c = id2 := by simpa using hh
        exact absurd this.symm hk
      · refine ⟨q, ?_, hh⟩
        rw [hco _ hA]
        exact hq
  · intro id2 u2 hu2l hst q hq hidq
    by_cases hk : id2 = c
    · rw [hk] at hu2l
      have he : u2 = t2 := Option.some.inj (hu2l.symm.trans hlc)
      have hacc3 : u2.id_cuenta = acc := by rw [he]; exact hacc2
      rw [hacc3, hcb] at hq
      rw [← Option.some.inj hq] at hidq
      exact absurd hidq (List.not_mem_nil id2)
    · rw [hoth id2 hk] at hu2l
      by_cases hA : u2.id_cuenta = acc
      · rw [hA, hcb] at hq
        rw [← Option.some.inj hq] at hidq
        exact absurd hidq (List.not_mem_nil id2)
      · rw [hco _ hA] at hq
        exact hInv.abort_head id2 u2 hu2l hst q hq hidq
  · intro id2 u2 hu2l hS
    by_cases hk : id2 = c
    · rw [hk] at hu2l
      have he : u2 = t2 := Option.some.inj (hu2l.symm.trans hlc)
      have htip3 : u2.tipo = CommitType.RESTA := by rw [he]; exact htip2
      exact absurd (htip3.symm.trans hS) (by decide)
    · rw [hoth id2 hk] at hu2l
      exact hInv.suma_status id2 u2 hu2l hS
  · intro id2 u2 hu2l
    by_cases hk : id2 = c
    · rw [hk] at hu2l
      have he : u2 = t2 := Option.some.inj (hu2l.symm.trans hlc)
      have htip3 : u2.tipo = CommitType.RESTA := by rw [he]; exact htip2
      exact Or.inl htip3
    · rw [hoth id2 hk] at hu2l
      exact hInv.tipo_known id2 u2 hu2l

/-- Popping the head Deduct of an account while promoting the next queued
Deduct of the same account to Wait preserves the invariant. -/
lemma coordInv_pop_promote (s s2 : Coordinador) (acc c next : ℕ) (rest : List ℕ)
    (txn t2 tn : TransactionCoordinator)
    (hInv : CoordInv s)
    (hq0 : alookup s.cola acc = some (c :: next :: rest))
    (hcb : alookup s2.cola acc = some (next :: rest))
    (hco : ∀ A, A ≠ acc → alookup s2.cola A = alookup s.cola A)
    (htc : alookup s.transacciones c = some txn)
    (htcacc : txn.id_cuenta = acc)
    (hlc : alookup s2.transacciones c = some t2)
    (hacc2 : t2.id_cuenta = acc) (htip2 : t2.tipo = CommitType.RESTA)
    (hnot2 : ¬ isActive t2)
    (htn : alookup s.transacciones next = some tn)
    (hln : alookup s2.transacciones next
        = some { tn with status := TransactionStateCoord.Wait })
    (hoth : ∀ k, k ≠ c → k ≠ next →
      alookup s2.transacciones k = alookup s.transacciones k) :
    CoordInv s2 := by
  have hnd := hInv.qnodup acc (c :: next :: rest) hq0
  have hcnotin : c ∉ next :: rest := (List.nodup_cons.mp hnd).1
  have hnd2 : (next :: rest).Nodup := (List.nodup_cons.mp hnd).2
  have hnnr : next ∉ rest := (List.nodup_cons.mp hnd2).1
  obtain ⟨utn, hutn, htnacc0, htnR0⟩ := hInv.qmem acc (c :: next :: rest) next hq0
    (List.mem_cons_of_mem c (List.mem_cons_self next rest))
  have hutn2 : utn = tn := Option.some.inj (hutn.symm.trans htn)
  have htnacc : tn.id_cuenta = acc := by rw [← hutn2]; exact htnacc0
  have htnR : tn.tipo = CommitType.RESTA := by rw [← hutn2]; exact htnR0
  have hnec : ∀ A q idq, A ≠ acc → alookup s.cola A = some q → idq ∈ q →
      idq ≠ c ∧ idq ≠ next := by
    intro A q idq hA hq hidq
    obtain ⟨u, hu, hu1, _⟩ := hInv.qmem A q idq hq hidq
    constructor
    · intro h
      rw [h] at hu
      have hut : u = txn := Option.some.inj (hu.symm.trans htc)
      rw [hut, htcacc] at hu1
      exact hA hu1.symm
    · intro h
      rw [h] at hu
      have hut : u = tn := Option.some.inj (hu.symm.trans htn)
      rw [hut, htnacc] at hu1
      exact hA hu1.symm
  constructor
  · intro A q idq hq hidq
    by_cases hA : A = acc
    · rw [hA, hcb] at hq
      rw [← Option.some.inj hq] at hidq
      rcases List.mem_cons.mp hidq with hid | hid
      · subst hid
        refine ⟨{ tn with status := TransactionStateCoord.Wait }, hln, ?_, ?_⟩
        · rw [hA]
          exact htnacc
        · exact htnR
      · have hne_c : idq ≠ c := by
          intro h
          apply hcnotin
          rw [← h]
          exact List.mem_cons_of_mem next hid
        have hne_n : idq ≠ next := by
          intro h
          rw [h] at hid
          exact hnnr hid
        obtain ⟨u, hu, hu1, hu2⟩ := hInv.qmem acc (c :: next :: rest) idq hq0
          (List.mem_cons_of_mem c (List.mem_cons_of_mem next hid))
        refine ⟨u, by rw [hoth idq hne_c hne_n]; exact hu, ?_, hu2⟩
        rw [hA]
        exact hu1
    · rw [hco A hA] at hq
      obtain ⟨u, hu, hu1, hu2⟩ := hInv.qmem A q idq hq hidq
      obtain ⟨hne_c, hne_n⟩ := hnec A q idq hA hq hidq
      exact ⟨u, by rw [hoth idq hne_c hne_n]; exact hu, hu1, hu2⟩
  · intro A q hq
    by_cases hA : A = acc
    · rw [hA, hcb] at hq
      rw [← Option.some.inj hq]
      exact hnd2
    · rw [hco A hA] at hq
      exact hInv.qnodup A q hq
  · intro A q idq hq hidq u2 hu2l
    by_cases hA : A = acc
    · rw [hA, hcb] at hq
      rw [← Option.some.inj hq] at hidq
      have hid : idq ∈ rest := hidq
      have hne_c : idq ≠ c := by
        intro h
        apply hcnotin
        rw [← h]
        exact List.mem_cons_of_mem next hid
      have hne_n : idq ≠ next := by
        intro h
        rw [h] at hid
        exact hnnr hid
      rw [hoth idq hne_c hne_n] at hu2l
      exact hInv.qtail acc (c :: next :: rest) idq hq0
        (List.mem_cons_of_mem next hid) u2 hu2l
    · rw [hco A hA] at hq
      obtain ⟨hne_c, hne_n⟩ := hnec A q idq hA hq (List.mem_of_mem_tail hidq)
      rw [hoth idq hne_c hne_n] at hu2l
      exact hInv.qtail A q idq hq hidq u2 hu2l
  · intro id2 u2 hu2l hR hactu
    by_cases hk : id2 = c
    · rw [hk] at hu2l
      have he : u2 = t2 := Option.some.inj (hu2l.symm.trans hlc)
      rw [he] at hactu
      exact absurd hactu hnot2
    · by_cases hk2 : id2 = next
      · rw [hk2] at hu2l
        have he : u2 = { tn with status := TransactionStateCoord.Wait } :=
          Option.some.inj (hu2l.symm.trans hln)
        have hacc3 : u2.id_cuenta = acc := by rw [he]; exact htnacc
        refine ⟨next :: rest, by rw [hacc3]; exact hcb, ?_⟩
        rw [hk2]
        rfl
      · rw [hoth id2 hk hk2] at hu2l
        obtain ⟨q, hq, hh⟩ := hInv.active_head id2 u2 hu2l hR hactu
        by_cases hA : u2.id_cuenta = acc
        · rw [hA, hq0] at hq
          rw [← Option.some.inj hq] at hh
          have : c = id2 := by simpa using hh
          exact absurd this.symm hk
        · refine ⟨q, ?_, hh⟩
          rw [hco _ hA]
          exact hq
  · intro id2 u2 hu2l hst q hq hidq
    by_cases hk : id2 = c
    · rw [hk] at hu2l
      have he : u2 = t2 := Option.some.inj (hu2l.symm.trans hlc)
      have hacc3 : u2.id_cuenta = acc := by rw [he]; exact hacc2
      rw [hacc3, hcb] at hq
      rw [← Option.some.inj hq] at hidq
      rw [hk] at hidq
      exact absurd hidq hcnotin
    · by_cases hk2 : id2 = next
      · rw [hk2] at hu2l
        have he : u2 = { tn with status := TransactionStateCoord.Wait } :=
          Option.some.inj (hu2l.symm.trans hln)
        have hstat : u2.status = TransactionStateCoord.Wait := by rw [he]
        exact absurd (hstat.symm.trans hst) (by decide)
      · rw [hoth id2 hk hk2] at hu2l
        by_cases hA : u2.id_cuenta = acc
        · rw [hA, hcb] at hq
          rw [← Option.some.inj hq] at hidq
          have hid3 : id2 ∈ rest := by
            rcases List.mem_cons.mp hidq with h | h
            · exact absurd h hk2
            · exact h
          have hU := hInv.qtail acc (c :: next :: rest) id2 hq0
            (List.mem_cons_of_mem next hid3) u2 hu2l
          exact absurd (hU.symm.trans hst) (by decide)
        · rw [hco _ hA] at hq
          exact hInv.abort_head id2 u2 hu2l hst q hq hidq
  · intro id2 u2 hu2l hS
    by_cases hk : id2 = c
    · rw [hk] at hu2l
      have he : u2 = t2 := Option.some.inj (hu2l.symm.trans hlc)
      have htip3 : u2.tipo = CommitType.RESTA := by rw [he]; exact htip2
      exact absurd (htip3.symm.trans hS) (by decide)
    · by_cases hk2 : id2 = next
      · rw [hk2] at hu2l
        have he : u2 = { tn with status := TransactionStateCoord.Wait } :=
          Option.some.inj (hu2l.symm.trans hln)
        have htip3 : u2.tipo = CommitType.RESTA := by rw [he]; exact htnR
        exact absurd (htip3.symm.trans hS) (by decide)
      · rw [hoth id2 hk hk2] at hu2l
        exact hInv.suma_status id2 u2 hu2l hS
  · intro id2 u2 hu2l
    by_cases hk : id2 = c
    · rw [hk] at hu2l
      have he : u2 = t2 := Option.some.inj (hu2l.symm.trans hlc)
      have htip3 : u2.tipo = CommitType.RESTA := by rw [he]; exact htip2
      exact Or.inl htip3
    · by_cases hk2 : id2 = next
      · rw [hk2] at hu2l
        have he : u2 = { tn with status := TransactionStateCoord.Wait } :=
          Option.some.inj (hu2l.symm.trans hln)
        have htip3 : u2.tipo = CommitType.RESTA := by rw [he]; exact htnR
        exact Or.inl htip3
      · rw [hoth id2 hk hk2] at hu2l
        exact hInv.tipo_known id2 u2 hu2l
/-- An Ok for a transaction in Commit preserves the invariant. -/
lemma coordInv_step_okey (s s2 : Coordinador) (a b c d : ℕ)
    (hInv : CoordInv s)
    (hg : coordGuard s (CoordMsg.okey a b c d))
    (hstep : coordStep s (CoordMsg.okey a b c d) = some s2) : CoordInv s2 := by
  obtain ⟨t, htl, htC⟩ := hg
  cases hc : s.conectado with
  | false =>
    simp [coordStep, hc] at hstep
    subst hstep
    exact hInv
  | true =>
    simp [coordStep, hc] at hstep
    simp only [htl] at hstep
    by_cases hcnt : t.ok_nodos.length + 1 = s.addr_nodos.length
    · rw [if_pos hcnt] at hstep
      by_cases htS : t.tipo = CommitType.SUMA
      · rw [if_pos htS] at hstep
        have hstep2 := Option.some.inj hstep
        have htr2 : s2.transacciones
            = amodify
                (amodify s.transacciones c
                  (fun u => { u with ok_nodos := u.ok_nodos ++ [a] }))
                c
                (fun u => { u with status := TransactionStateCoord.Done,
                                   ok_nodos := [] }) := by
          rw [← hstep2]
        have hcol2 : ∀ A, alookup s2.cola A = alookup s.cola A := by
          intro A
          rw [← hstep2]
        have hlc : alookup s2.transacciones c
            = some { t with status := TransactionStateCoord.Done,
                            ok_nodos := [] } := by
          rw [htr2, alookup_amodify, if_pos rfl, alookup_amodify, if_pos rfl, htl]
          rfl
        have hoth : ∀ k, k ≠ c →
            alookup s2.transacciones k = alookup s.transacciones k := by
          intro k hk
          rw [htr2, alookup_amodify, if_neg hk, alookup_amodify, if_neg hk]
        have hqc : ∀ A q, alookup s.cola A = some q → c ∉ q := by
          intro A q hqA hmem
          obtain ⟨u, hu, _, huR⟩ := hInv.qmem A q c hqA hmem
          have hut : u = t := Option.some.inj (hu.symm.trans htl)
          rw [hut, htS] at huR
          exact absurd huR (by decide)
        constructor
        · intro A q idq hq hidq
          rw [hcol2] at hq
          obtain ⟨u, hu, hu1, hu2⟩ := hInv.qmem A q idq hq hidq
          have hne : idq ≠ c := by
            intro h
            exact hqc A q hq (h ▸ hidq)
          exact ⟨u, by rw [hoth idq hne]; exact hu, hu1, hu2⟩
        · intro A q hq
          rw [hcol2] at hq
          exact hInv.qnodup A q hq
        · intro A q idq hq hidq u2 hu2l
          rw [hcol2] at hq
          have hne : idq ≠ c := by
            intro h
            exact hqc A q hq (h ▸ List.mem_of_mem_tail hidq)
          rw [hoth idq hne] at hu2l
          exact hInv.qtail A q idq hq hidq u2 hu2l
        · intro id2 u2 hu2l hR hactu
          by_cases hk : id2 = c
          · rw [hk] at hu2l
            have he : u2 = _ := Option.some.inj (hu2l.symm.trans hlc)
            have htip3 : u2.tipo = CommitType.SUMA := by rw [he]; exact htS
            exact absurd (htip3.symm.trans hR) (by decide)
          · rw [hoth id2 hk] at hu2l
            obtain ⟨q, hq, hh⟩ := hInv.active_head id2 u2 hu2l hR hactu
            refine ⟨q, ?_, hh⟩
            rw [hcol2]
            exact hq
        · intro id2 u2 hu2l hst q hq hidq
          rw [hcol2] at hq
          by_cases hk : id2 = c
          · rw [hk] at hu2l
            have he : u2 = _ := Option.some.inj (hu2l.symm.trans hlc)
            have hstat : u2.status = TransactionStateCoord.Done := by rw [he]
            exact absurd (hstat.symm.trans hst) (by decide)
          · rw [hoth id2 hk] at hu2l
            exact hInv.abort_head id2 u2 hu2l hst q hq hidq
        · intro id2 u2 hu2l hS
          by_cases hk : id2 = c
          · rw [hk] at hu2l
            have he : u2 = _ := Option.some.inj (hu2l.symm.trans hlc)
            have hstat : u2.status = TransactionStateCoord.Done := by rw [he]
            exact Or.inr hstat
          · rw [hoth id2 hk] at hu2l
            exact hInv.suma_status id2 u2 hu2l hS
        · intro id2 u2 hu2l
          by_cases hk : id2 = c
          · rw [hk] at hu2l
            have he : u2 = _ := Option.some.inj (hu2l.symm.trans hlc)
            exact Or.inr (by rw [he]; exact htS)
          · rw [hoth id2 hk] at hu2l
            exact hInv.tipo_known id2 u2 hu2l
      · rw [if_neg htS] at hstep
        have htR : t.tipo = CommitType.RESTA := by
          rcases hInv.tipo_known c t htl with h | h
          · exact h
          · exact absurd h htS
        obtain ⟨q0, hq0, hh0⟩ :=
          hInv.active_head c t htl htR (Or.inr (Or.inr htC))
        rcases q0 with _ | ⟨p0, tail⟩
        · simp at hh0
        · have hp0 : c = p0 := by simpa using hh0.symm
          subst hp0
          rcases tail with _ | ⟨next, rest⟩
          · simp only [hq0] at hstep
            have hstep2 := Option.some.inj hstep
            have htr2 : s2.transacciones
                = amodify
                    (amodify s.transacciones c
                      (fun u => { u with ok_nodos := u.ok_nodos ++ [a] }))
                    c
                    (fun u => { u with status := TransactionStateCoord.Done,
                                       ok_nodos := [] }) := by
              rw [← hstep2]
            have hcol2 : s2.cola
                = amodify s.cola t.id_cuenta (fun _ => []) := by
              rw [← hstep2]
            refine coordInv_pop_last s s2 t.id_cuenta c t
              { t with status := TransactionStateCoord.Done, ok_nodos := [] }
              hInv hq0 ?_ ?_ htl rfl ?_ rfl htR ?_ ?_
            · rw [hcol2, alookup_amodify, if_pos rfl, hq0]
              rfl
            · intro A hA
              rw [hcol2, alookup_amodify, if_neg hA]
            · rw [htr2, alookup_amodify, if_pos rfl, alookup_amodify, if_pos rfl,
                htl]
              rfl
            · intro h
              rcases h with h | h | h <;>
                exact absurd h (by rw [show ({ t with
                    status := TransactionStateCoord.Done,
                    ok_nodos := ([] : List ℕ) } : TransactionCoordinator).status
                  = TransactionStateCoord.Done from rfl]; decide)
            · intro k hk
              rw [htr2, alookup_amodify, if_neg hk, alookup_amodify, if_neg hk]
          · have hnd := hInv.qnodup t.id_cuenta (c :: next :: rest) hq0
            have hnextc : next ≠ c := by
              intro h
              have := (List.nodup_cons.mp hnd).1
              apply this
              rw [← h]
              exact List.mem_cons_self next rest
            obtain ⟨tn0, htn0, _, _⟩ :=
              hInv.qmem t.id_cuenta (c :: next :: rest) next hq0
                (List.mem_cons_of_mem c (List.mem_cons_self next rest))
            have hsc : alookup
                (amodify
                  (amodify s.transacciones c
                    (fun u => { u with ok_nodos := u.ok_nodos ++ [a] }))
                  c
                  (fun u => { u with status := TransactionStateCoord.Done,
                                     ok_nodos := [] }))
                next = some tn0 := by
              rw [alookup_amodify, if_neg hnextc, alookup_amodify, if_neg hnextc,
                htn0]
            simp only [hq0, hsc] at hstep
            have hstep2 := Option.some.inj hstep
            have htr2 : s2.transacciones
                = amodify
                    (amodify
                      (amodify s.transacciones c
                        (fun u => { u with ok_nodos := u.ok_nodos ++ [a] }))
                      c
                      (fun u => { u with status := TransactionStateCoord.Done,
                                         ok_nodos := [] }))
                    next
                    (fun u => { u with status := TransactionStateCoord.Wait }) := by
              rw [← hstep2]
            have hcol2 : s2.cola
                = amodify s.cola t.id_cuenta (fun _ => next :: rest) := by
              rw [← hstep2]
            refine coordInv_pop_promote s s2 t.id_cuenta c next rest t
              { t with status := TransactionStateCoord.Done, ok_nodos := [] }
              tn0 hInv hq0 ?_ ?_ htl rfl ?_ rfl htR ?_ htn0 ?_ ?_
            · rw [hcol2, alookup_amodify, if_pos rfl, hq0]
              rfl
            · intro A hA
              rw [hcol2, alookup_amodify, if_neg hA]
            · rw [htr2, alookup_amodify, if_neg hnextc.symm, alookup_amodify,
                if_pos rfl, alookup_amodify, if_pos rfl, htl]
              rfl
            · intro h
              rcases h with h | h | h <;>
                exact absurd h (by rw [show ({ t with
                    status := TransactionStateCoord.Done,
                    ok_nodos := ([] : List ℕ) } : TransactionCoordinator).status
                  = TransactionStateCoord.Done from rfl]; decide)
            · rw [htr2, alookup_amodify, if_pos rfl, hsc]
              rfl
            · intro k hkc hkn
              rw [htr2, alookup_amodify, if_neg hkn, alookup_amodify, if_neg hkc,
                alookup_amodify, if_neg hkc]
    · rw [if_neg hcnt] at hstep
      have hstep2 := Option.some.inj hstep
      have htr2 : s2.transacciones
          = amodify s.transacciones c
              (fun u => { u with ok_nodos := u.ok_nodos ++ [a] }) := by
        rw [← hstep2]
      refine coordInv_congr s s2 (fun A => by rw [← hstep2]) ?_ hInv
      intro k
      rw [htr2, alookup_amodify]
      by_cases hk : k = c
      · rw [if_pos hk, hk, htl]
        rfl
      · rw [if_neg hk]
/-- An OkAbort for an aborted, still-queued transaction preserves the
invariant. -/
lemma coordInv_step_okeyAbort (s s2 : Coordinador) (a b c d : ℕ)
    (hInv : CoordInv s)
    (hg : coordGuard s (CoordMsg.okeyAbort a b c d))
    (hstep : coordStep s (CoordMsg.okeyAbort a b c d) = some s2) : CoordInv s2 := by
  obtain ⟨t, htl, htA, qg, hqg, hmem⟩ := hg
  cases hc : s.conectado with
  | false =>
    simp [coordStep, hc] at hstep
    subst hstep
    exact hInv
  | true =>
    simp [coordStep, hc] at hstep
    simp only [htl] at hstep
    have htR : t.tipo = CommitType.RESTA := by
      rcases hInv.tipo_known c t htl with h | h
      · exact h
      · rcases hInv.suma_status c t htl h with h2 | h2 <;>
          rw [htA] at h2 <;> exact absurd h2 (by decide)
    by_cases hcnt : t.ok_nodos.length + 1 = s.addr_nodos.length
    · rw [if_pos hcnt] at hstep
      have hh0 : qg.head? = some c := hInv.abort_head c t htl htA qg hqg hmem
      rcases qg with _ | ⟨p0, tail⟩
      · simp at hh0
      · have hp0 : c = p0 := by simpa using hh0.symm
        subst hp0
        rcases tail with _ | ⟨next, rest⟩
        · simp only [hqg] at hstep
          have hstep2 := Option.some.inj hstep
          have htr2 : s2.transacciones
              = amodify
                  (amodify s.transacciones c
                    (fun u => { u with ok_nodos := u.ok_nodos ++ [a] }))
                  c
                  (fun u => { u with status := TransactionStateCoord.Abort,
                                     ok_nodos := [] }) := by
            rw [← hstep2]
          have hcol2 : s2.cola
              = amodify s.cola t.id_cuenta (fun _ => []) := by
            rw [← hstep2]
          refine coordInv_pop_last s s2 t.id_cuenta c t
            { t with status := TransactionStateCoord.Abort, ok_nodos := [] }
            hInv hqg ?_ ?_ htl rfl ?_ rfl htR ?_ ?_
          · rw [hcol2, alookup_amodify, if_pos rfl, hqg]
            rfl
          · intro A hA
            rw [hcol2, alookup_amodify, if_neg hA]
          · rw [htr2, alookup_amodify, if_pos rfl, alookup_amodify, if_pos rfl,
              htl]
            rfl
          · intro h
            rcases h with h | h | h <;>
              exact absurd h (by rw [show ({ t with
                  status := TransactionStateCoord.Abort,
                  ok_nodos := ([] : List ℕ) } : TransactionCoordinator).status
                = TransactionStateCoord.Abort from rfl]; decide)
          · intro k hk
            rw [htr2, alookup_amodify, if_neg hk, alookup_amodify, if_neg hk]
        · have hnd := hInv.qnodup t.id_cuenta (c :: next :: rest) hqg
          have hnextc : next ≠ c := by
            intro h
            have h2 := (List.nodup_cons.mp hnd).1
            apply h2
            rw [← h]
            exact List.mem_cons_self next rest
          obtain ⟨tn0, htn0, _, _⟩ :=
            hInv.qmem t.id_cuenta (c :: next :: rest) next hqg
              (List.mem_cons_of_mem c (List.mem_cons_self next rest))
          have hsc : alookup
              (amodify
                (amodify s.transacciones c
                  (fun u => { u with ok_nodos := u.ok_nodos ++ [a] }))
                c
                (fun u => { u with status := TransactionStateCoord.Abort,
                                   ok_nodos := [] }))
              next = some tn0 := by
            rw [alookup_amodify, if_neg hnextc, alookup_amodify, if_neg hnextc,
              htn0]
          simp only [hqg, hsc] at hstep
          have hstep2 := Option.some.inj hstep
          have htr2 : s2.transacciones
              = amodify
                  (amodify
                    (amodify s.transacciones c
                      (fun u => { u with ok_nodos := u.ok_nodos ++ [a] }))
                    c
                    (fun u => { u with status := TransactionStateCoord.Abort,
                                       ok_nodos := [] }))
                  next
                  (fun u => { u with status := TransactionStateCoord.Wait }) := by
            rw [← hstep2]
          have hcol2 : s2.cola
              = amodify s.cola t.id_cuenta (fun _ => next :: rest) := by
            rw [← hstep2]
          refine coordInv_pop_promote s s2 t.id_cuenta c next rest t
            { t with status := TransactionStateCoord.Abort, ok_nodos := [] }
            tn0 hInv hqg ?_ ?_ htl rfl ?_ rfl htR ?_ htn0 ?_ ?_
          · rw [hcol2, alookup_amodify, if_pos rfl, hqg]
            rfl
          · intro A hA
            rw [hcol2, alookup_amodify, if_neg hA]
          · rw [htr2, alookup_amodify, if_neg hnextc.symm, alookup_amodify,
              if_pos rfl, alookup_amodify, if_pos rfl, htl]
            rfl
          · intro h
            rcases h with h | h | h <;>
              exact absurd h (by rw [show ({ t with
                  status := TransactionStateCoord.Abort,
                  ok_nodos := ([] : List ℕ) } : TransactionCoordinator).status
                = TransactionStateCoord.Abort from rfl]; decide)
          · rw [htr2, alookup_amodify, if_pos rfl, hsc]
            rfl
          · intro k hkc hkn
            rw [htr2, alookup_amodify, if_neg hkn, alookup_amodify, if_neg hkc,
              alookup_amodify, if_neg hkc]
    · rw [if_neg hcnt] at hstep
      have hstep2 := Option.some.inj hstep
      have htr2 : s2.transacciones
          = amodify s.transacciones c
              (fun u => { u with ok_nodos := u.ok_nodos ++ [a] }) := by
        rw [← hstep2]
      refine coordInv_congr s s2 (fun A => by rw [← hstep2]) ?_ hInv
      intro k
      rw [htr2, alookup_amodify]
      by_cases hk : k = c
      · rw [if_pos hk, hk, htl]
        rfl
      · rw [if_neg hk]
/-- One guarded coordinator step preserves the invariant. -/
lemma coordInv_step (s : Coordinador) (m : CoordMsg) (s2 : Coordinador)
    (hInv : CoordInv s) (hg : coordGuard s m) (hstep : coordStep s m = some s2) :
    CoordInv s2 := by
  cases m with
  | addNodo a => exact coordInv_step_addNodo s s2 a hInv hstep
  | starter a b c d => exact coordInv_step_starter s s2 a b c d hInv hg hstep
  | yes a b c d => exact coordInv_step_yes s s2 a b c d hInv hg hstep
  | finish a b c tp e f => exact coordInv_step_finish s s2 a b c tp e f hInv hg hstep
  | okey a b c d => exact coordInv_step_okey s s2 a b c d hInv hg hstep
  | okeyAbort a b c d => exact coordInv_step_okeyAbort s s2 a b c d hInv hg hstep
  | abortMsg a b c d => exact coordInv_step_abortMsg s s2 a b c d hInv hg hstep
  | disconnectNodo a => exact absurd hg (by simp [coordGuard])
  | disconnect => exact absurd hg (by simp [coordGuard])
  | setState e => exact absurd hg (by simp [coordGuard])
  | pingCord a => exact absurd hg (by simp [coordGuard])

/-- The invariant holds in every reachable coordinator state. -/
lemma coordInv_reachable (s : Coordinador) (h : ReachableCoord s) : CoordInv s := by
  induction h with
  | init => exact coordInv_init
  | step s m s2 hr hg hstep ih => exact coordInv_step s m s2 ih hg hstep

/-- The coordinator state after AddNodo(1), Starter(1,5,100,0),
Starter(1,5,200,1): transaction 100 drives account 5 (Wait) and
transaction 200 waits dormant behind it. -/
def exampleCoordS : Coordinador :=
  { addr_nodos := [1],
    transacciones :=
      [(200, { status := TransactionStateCoord.Uninitialized, yes_nodos := [],
               ok_nodos := [], from_id_nodo := 1, id_cuenta := 5,
               tipo := CommitType.RESTA, id_cafetera := 1 }),
       (100, { status := TransactionStateCoord.Wait, yes_nodos := [],
               ok_nodos := [], from_id_nodo := 1, id_cuenta := 5,
               tipo := CommitType.RESTA, id_cafetera := 0 })],
    cola := [(5, [100, 200])],
    conectado := true }

/-- C1 (amended): along every run of AddNodo, Starter, Yes, Finish, Ok,
OkAbort and Abort messages that are protocol-consistent (guarded) and
contain no disconnects, at most one Deduct per account is in an active
phase (Wait, Execute or Commit) — any two such transactions on one account
coincide — and every queued non-head transaction is still Uninitialized
(dormant) until promoted. -/
theorem C1_per_account_serialisation (s : Coordinador) (h : ReachableCoord s) :
    (∀ id1 id2 t1 t2,
        alookup s.transacciones id1 = some t1 →
        alookup s.transacciones id2 = some t2 →
        t1.tipo = CommitType.RESTA → t2.tipo = CommitType.RESTA →
        isActive t1 → isActive t2 →
        t1.id_cuenta = t2.id_cuenta → id1 = id2) ∧
    (∀ A q id2 t, alookup s.cola A = some q → id2 ∈ q.tail →
        alookup s.transacciones id2 = some t →
        t.status = TransactionStateCoord.Uninitialized) := by
  have hInv := coordInv_reachable s h
  constructor
  · intro id1 id2 t1 t2 h1 h2 hR1 hR2 ha1 ha2 hacc
    obtain ⟨q1, hq1, hh1⟩ := hInv.active_head id1 t1 h1 hR1 ha1
    obtain ⟨q2, hq2, hh2⟩ := hInv.active_head id2 t2 h2 hR2 ha2
    rw [hacc] at hq1
    rw [Option.some.inj (hq1.symm.trans hq2)] at hh1
    exact Option.some.inj (hh1.symm.trans hh2)
  · intro A q id2 t hq hidq htr
    exact hInv.qtail A q id2 hq hidq t htr

/-- Witness for C1 amended: after AddNodo(1) and two Starters for account 5
the state is reachable; the uniqueness part applied at the two lookups of
the active transaction 100 returns 100 = 100, and the dormancy part applied
to queue [100, 200] of account 5 at the queued non-head 200 yields its
Uninitialized status. -/
theorem C1_per_account_serialisation_witness :
    ReachableCoord exampleCoordS ∧ (100 : ℕ) = 100 ∧
      TransactionStateCoord.Uninitialized = TransactionStateCoord.Uninitialized := by
  have hreach : ReachableCoord exampleCoordS :=
    ReachableCoord.step _ (CoordMsg.starter 1 5 200 1) _
      (ReachableCoord.step _ (CoordMsg.starter 1 5 100 0) _
        (ReachableCoord.step _ (CoordMsg.addNodo 1) _ ReachableCoord.init
          trivial rfl)
        rfl rfl)
      rfl rfl
  refine ⟨hreach, ?_, ?_⟩
  · exact (C1_per_account_serialisation exampleCoordS hreach).1 100 100
      { status := TransactionStateCoord.Wait, yes_nodos := [], ok_nodos := [],
        from_id_nodo := 1, id_cuenta := 5, tipo := CommitType.RESTA,
        id_cafetera := 0 }
      { status := TransactionStateCoord.Wait, yes_nodos := [], ok_nodos := [],
        from_id_nodo := 1, id_cuenta := 5, tipo := CommitType.RESTA,
        id_cafetera := 0 }
      rfl rfl rfl rfl (Or.inl rfl) (Or.inl rfl) rfl
  · exact (C1_per_account_serialisation exampleCoordS hreach).2 5 [100, 200] 200
      { status := TransactionStateCoord.Uninitialized, yes_nodos := [],
        ok_nodos := [], from_id_nodo := 1, id_cuenta := 5,
        tipo := CommitType.RESTA, id_cafetera := 1 }
      rfl (by decide) rfl

end Ledger

/- ===================================================================
   Assignment 1: orders and the three container kinds
   (src/order.rs, src/enums.rs, src/set_conteiners/*.rs).
   f32 quantities are embedded as exact rationals: the code only adds,
   subtracts and compares them, and every claim is about that exact
   arithmetic structure.
   =================================================================== -/

namespace Cafeteria

/-- `IngredientType` of enums.rs. -/
inductive IngredientType where
  | Agua
  | CafeMolido
  | EspumaLeche
  | Cacao
  | LecheFria
  | GranosCafe
deriving DecidableEq, Repr

/-- `IngredientStateOfOrder` of enums.rs. -/
inductive IngredientStateOfOrder where
  | Applied (q : ℚ)
  | NotApplied (q : ℚ)
  | NoEnoughResourceContainer
deriving DecidableEq, Repr

/-- `StateOfConteiner` of enums.rs. -/
inductive StateOfConteiner where
  | Free
  | Taken
  | NoEnoughResource
deriving DecidableEq, Repr

/-- `StateOfConteiner::is_free`. -/
def StateOfConteiner.is_free : StateOfConteiner → Bool
  | .Free => true
  | _ => false

/-- `OrderState` of enums.rs. -/
inductive OrderState where
  | Completed
  | InProgress
  | NoEnoughResourceContainer
deriving DecidableEq, Repr

/-- The `Order` struct of order.rs; the `ingredientes` HashMap becomes a
function to Option. -/
structure Order where
  id : ℤ
  ingredientes : IngredientType → Option IngredientStateOfOrder
  status : OrderState

/-- HashMap::insert on the `ingredientes` map. -/
def insertIng (f : IngredientType → Option IngredientStateOfOrder)
    (k : IngredientType) (v : IngredientStateOfOrder) :
    IngredientType → Option IngredientStateOfOrder :=
  fun t => if t = k then some v else f t

/-- `Order::can_satisfy`: the order requires this ingredient and the available
quantity suffices. -/
def Order.can_satisfy (o : Order) (tipo : IngredientType) (quantity_available : ℚ) : Bool :=
  let value_requiered_order : ℚ :=
    (match o.ingredientes tipo with
      | some (.Applied _) => some (0 : ℚ)
      | some (.NotApplied value) => some value
      | some .NoEnoughResourceContainer => none
      | none => none).getD 0
  decide (0 < value_requiered_order) && decide (value_requiered_order ≤ quantity_available)

/-- `Order::get`: quantity still required for an ingredient (None when the
entry was flagged NoEnoughResourceContainer). -/
def Order.get (o : Order) (tipo : IngredientType) : Option ℚ :=
  match o.ingredientes tipo with
  | some (.Applied _) => some 0
  | some (.NotApplied v) => some v
  | some .NoEnoughResourceContainer => none
  | none => none

/-- `Order::apply`: marks the ingredient Applied and returns the amount that
was pending (0 if it was not in state NotApplied). -/
def Order.apply (o : Order) (tipo : IngredientType) : ℚ × Order :=
  let quantity_applied : ℚ :=
    match o.ingredientes tipo with
    | some (.NotApplied v) => v
    | _ => 0
  (quantity_applied,
    { o with ingredientes := insertIng o.ingredientes tipo (.Applied quantity_applied) })

/-- `Order::set_no_enough_resource_container`. -/
def Order.set_no_enough_resource_container (o : Order) (tipo : IngredientType) : Order :=
  { o with ingredientes := insertIng o.ingredientes tipo .NoEnoughResourceContainer }

/-- `Order::requiere`: the order has the ingredient with pending amount > 0. -/
def Order.requiere (o : Order) (tipo : IngredientType) : Bool :=
  (o.ingredientes tipo).isSome && decide (0 < (o.get tipo).getD 0)

/-- The `RechargableConteiner` struct of rechargable_conteiner.rs. -/
structure RechargableConteiner where
  tipo : IngredientType
  capacity : ℚ
  quantity : ℚ
  quantity_to_recharge : IngredientType × ℚ
  state : StateOfConteiner

/-- `RechargableConteiner::have_sufficient_quantity`. -/
def RechargableConteiner.have_sufficient_quantity
    (c : RechargableConteiner) (o : Order) : Bool :=
  if c.quantity < 0 then false else o.can_satisfy c.tipo c.quantity

/-- `RechargableConteiner::belongs_to_range_capacities`. -/
def RechargableConteiner.belongs_to_range_capacities
    (c : RechargableConteiner) (o : Order) : Bool :=
  o.can_satisfy c.tipo c.capacity

/-- `RechargableConteiner::can_reload_for_order`. -/
def RechargableConteiner.can_reload_for_order
    (c : RechargableConteiner) (o : Order) : Bool :=
  if c.quantity_to_recharge.2 < 0 then false
  else o.can_satisfy c.tipo (c.quantity_to_recharge.2 + c.quantity)

/-- `RechargableConteiner::reload_container`: tops the container up to
capacity and subtracts the transferred amount from the reload pool.  The
subtraction happens before any headroom check, exactly as in the source. -/
def RechargableConteiner.reload_container (c : RechargableConteiner) : RechargableConteiner :=
  let need_to_reload := c.capacity - c.quantity
  { c with
    quantity := c.quantity + need_to_reload,
    quantity_to_recharge := (c.quantity_to_recharge.1, c.quantity_to_recharge.2 - need_to_reload) }

/-- `ApplyContainer::apply_ingredient` for `RechargableConteiner`
(simulation sleeps dropped; they do not touch the data). -/
def RechargableConteiner.apply_ingredient
    (c : RechargableConteiner) (o : Order) : RechargableConteiner × Order :=
  if !(c.belongs_to_range_capacities o) then
    ({ c with state := .Free }, o.set_no_enough_resource_container c.tipo)
  else if !(c.have_sufficient_quantity o) && !(c.can_reload_for_order o) then
    ({ c with state :=
        if 0 < c.quantity ∨ 0 < c.quantity_to_recharge.2 then .Free
        else .NoEnoughResource },
      o.set_no_enough_resource_container c.tipo)
  else
    let c1 := if !(c.have_sufficient_quantity o) then c.reload_container else c
    let res := o.apply c.tipo
    let q1 := c1.quantity - res.1
    ({ c1 with
        quantity := q1,
        state :=
          if 0 < q1 ∨ 0 < c1.quantity_to_recharge.2 then .Free
          else .NoEnoughResource },
      res.2)

/-- The `NoRechargableConteiner` struct of no_rechargable_conteiner.rs. -/
structure NoRechargableConteiner where
  tipo : IngredientType
  capacity : ℚ
  quantity : ℚ
  state : StateOfConteiner

/-- `NoRechargableConteiner::have_sufficient_quantity`. -/
def NoRechargableConteiner.have_sufficient_quantity
    (c : NoRechargableConteiner) (o : Order) : Bool :=
  if c.quantity < 0 then false else o.can_satisfy c.tipo c.quantity

/-- `ApplyContainer::apply_ingredient` for `NoRechargableConteiner`. -/
def NoRechargableConteiner.apply_ingredient
    (c : NoRechargableConteiner) (o : Order) : NoRechargableConteiner × Order :=
  if !(c.have_sufficient_quantity o) then
    ({ c with state := if 0 < c.quantity then .Free else .NoEnoughResource },
      o.set_no_enough_resource_container c.tipo)
  else
    let res := o.apply c.tipo
    let q1 := c.quantity - res.1
    ({ c with
        quantity := q1,
        state := if 0 < q1 then .Free else .NoEnoughResource },
      res.2)

/-- The amount the non-rechargeable apply step removes from the container
(the value returned by `order.apply` in the sufficient-quantity branch,
0 in the insufficient branch). -/
def NoRechargableConteiner.applied_amount
    (c : NoRechargableConteiner) (o : Order) : ℚ :=
  if c.have_sufficient_quantity o then (o.apply c.tipo).1 else 0

/-- The `InfinityConteiner` struct of infinity_conteiner.rs. -/
structure InfinityConteiner where
  tipo : IngredientType
  capacity : ℚ
  quantity : ℚ

/-- `InfinityConteiner::have_sufficient_quantity`. -/
def InfinityConteiner.have_sufficient_quantity
    (c : InfinityConteiner) (o : Order) : Bool :=
  if c.quantity < 0 then false else o.can_satisfy c.tipo c.quantity

/-- `InfinityConteiner::belongs_to_range_capacities`. -/
def InfinityConteiner.belongs_to_range_capacities
    (c : InfinityConteiner) (o : Order) : Bool :=
  o.can_satisfy c.tipo c.capacity

/-- `ApplyContainer::apply_ingredient` for `InfinityConteiner`
(`reload_container` sets quantity back to capacity). -/
def InfinityConteiner.apply_ingredient
    (c : InfinityConteiner) (o : Order) : InfinityConteiner × Order :=
  if !(c.belongs_to_range_capacities o) then
    (c, o.set_no_enough_resource_container c.tipo)
  else
    let c1 := if !(c.have_sufficient_quantity o) then { c with quantity := c.capacity } else c
    let res := o.apply c.tipo
    ({ c1 with quantity := c1.quantity - res.1 }, res.2)

/-- The `ContainersStates` struct of conteiners_states.rs; the two HashMaps
become association lists (iteration order is the list order). -/
structure ContainersStates where
  principal_conteiners : List (IngredientType × StateOfConteiner × ℚ)
  quantity_to_recharge : List (IngredientType × ℚ)

/-- The candidate vector `a` built inside `find_rng_any_container_free_for`:
ingredient types of the principal containers that are Free and required by
the order (with pending amount > 0, per `Order::requiere`). -/
def candidatesFreeFor (s : ContainersStates) (o : Order) : List IngredientType :=
  (s.principal_conteiners.filter (fun p => p.2.1.is_free && o.requiere p.1)).map
    (fun p => p.1)

/-- `ContainersStates::find_rng_any_container_free_for`.  `rng_element`
stands for the value drawn by `gen_range(0, a.len())`, which lies in
[0, a.len()) whenever the range is nonempty and panics when it is empty;
the panic is modelled as `none`. -/
def ContainersStates.find_rng_any_container_free_for
    (s : ContainersStates) (o : Order) (rng_element : ℕ) :
    Option (Except Unit IngredientType) :=
  let a := candidatesFreeFor s o
  if a.length = 0 then none
  else some (match a.get? rng_element with
    | some ele => Except.ok ele
    | none => Except.error ())

/-- `ContainersStates::order_is_processable`. -/
def ContainersStates.order_is_processable (s : ContainersStates) (o : Order) : Bool :=
  s.principal_conteiners.any (fun p => p.2.1.is_free && o.requiere p.1)

/-- Iterated `apply_ingredient` on a non-rechargeable container. -/
def nrRun (c : NoRechargableConteiner) : List Order → NoRechargableConteiner
  | [] => c
  | o :: rest => nrRun (c.apply_ingredient o).1 rest

/-- Total amount applied to orders across a run. -/
def nrApplied (c : NoRechargableConteiner) : List Order → ℚ
  | [] => 0
  | o :: rest => c.applied_amount o + nrApplied (c.apply_ingredient o).1 rest

end Cafeteria

/- ===================================================================
   Assignment 1: the order-file reader (src/file_orders.rs and
   Order::new_with_id of src/order.rs).  The numbers in the file are
   parsed with Rust's `str::parse::<f32>`; its acceptance grammar
   (optional sign, inf/infinity/nan case-insensitively, digits with an
   optional fraction and exponent) is embedded exactly, and accepted
   finite numbers are represented by their exact rational value (the
   claims only compare parsed values with 0, where f32 rounding is
   irrelevant).
   =================================================================== -/

namespace FileOrders

/-- An f32 value as far as the order file is concerned: a finite (exact)
value, an infinity, or NaN. -/
inductive FloatVal where
  | fin (q : ℚ)
  | posInf
  | negInf
  | nan
deriving DecidableEq, Repr

/-- The Rust comparison `v > 0.0`. -/
def FloatVal.gtZero : FloatVal → Bool
  | .fin q => decide (0 < q)
  | .posInf => true
  | .negInf => false
  | .nan => false

/-- Value of a list of ASCII digits read in base 10. -/
def natOfDigits (l : List Char) : ℕ :=
  l.foldl (fun acc c => 10 * acc + (c.toNat - 48)) 0

/-- Exact value of the mantissa `ip . fp`. -/
def mantissaVal (ip fp : List Char) : ℚ :=
  (natOfDigits ip : ℚ) + (natOfDigits fp : ℚ) / (10 : ℚ) ^ fp.length

/-- Exact value of a parsed finite float with sign, mantissa and decimal
exponent. -/
def finishNumber (neg : Bool) (ip fp : List Char) (e : ℤ) : FloatVal :=
  let v : ℚ := mantissaVal ip fp * (10 : ℚ) ^ e
  .fin (if neg then -v else v)

/-- Parse the optional exponent suffix after the mantissa; `rest` is what
follows the mantissa digits.  Anything other than a well-formed exponent (or
the end of the token) is a parse error. -/
def parseExpPart (neg : Bool) (ip fp rest : List Char) : Option FloatVal :=
  match rest with
  | [] => some (finishNumber neg ip fp 0)
  | e :: r =>
    if e = 'e' ∨ e = 'E' then
      let signed : Bool × List Char :=
        match r with
        | '+' :: rr => (false, rr)
        | '-' :: rr => (true, rr)
        | rr => (false, rr)
      let ed := signed.2.takeWhile Char.isDigit
      let rest2 := signed.2.dropWhile Char.isDigit
      if ed = [] ∨ rest2 ≠ [] then none
      else
        some (finishNumber neg ip fp
          (if signed.1 then -(natOfDigits ed : ℤ) else (natOfDigits ed : ℤ)))
    else none

/-- Rust `str::parse::<f32>` acceptance and exact value: optional sign, then
inf/infinity/nan (case-insensitive) or digits with optional fraction and
exponent; at least one mantissa digit is required. -/
def parseF32 (s : List Char) : Option FloatVal :=
  let signed : Bool × List Char :=
    match s with
    | '+' :: r => (false, r)
    | '-' :: r => (true, r)
    | r => (false, r)
  let neg := signed.1
  let rest := signed.2
  let lower := rest.map Char.toLower
  if lower = ['i', 'n', 'f'] ∨ lower = ['i', 'n', 'f', 'i', 'n', 'i', 't', 'y'] then
    some (if neg then .negInf else .posInf)
  else if lower = ['n', 'a', 'n'] then
    some .nan
  else
    let ip := rest.takeWhile Char.isDigit
    let rest2 := rest.dropWhile Char.isDigit
    match rest2 with
    | '.' :: rest3 =>
      let fp := rest3.takeWhile Char.isDigit
      let rest4 := rest3.dropWhile Char.isDigit
      if ip = [] ∧ fp = [] then none else parseExpPart neg ip fp rest4
    | _ =>
      if ip = [] then none else parseExpPart neg ip [] rest2

/-- `parse_word` of file_orders.rs: parse everything after the first (ASCII)
letter; `none` is the propagated `ErrorCafeteria`. -/
def parseWord (w : List Char) : Option FloatVal :=
  parseF32 (w.drop 1)

/-- The four mutable locals `agua`, `granos_molidos`, `cacao`,
`espuma_de_leche` of the read_orders loop, keyed by the letter that selects
them ('A', 'M', 'C', 'E'). -/
def updateSlot (sl : Char → Option FloatVal) (c : Char) (v : FloatVal) :
    Char → Option FloatVal :=
  fun d => if d = c then some v else sl d

/-- The letters that select a slot in the match of read_orders. -/
def isOrderLetter (c : Char) : Bool :=
  c = 'A' || c = 'M' || c = 'C' || c = 'E'

/-- One iteration of the token loop of read_orders: a token whose first
character is one of A/M/C/E overwrites that slot with its parsed value
(propagating a parse error), any other token is ignored. -/
def processWord (sl : Char → Option FloatVal) (w : List Char) :
    Option (Char → Option FloatVal) :=
  match w.head? with
  | some c => if isOrderLetter c then (parseWord w).map (updateSlot sl c) else some sl
  | none => some sl

/-- The token loop over one line. -/
def processWords (sl : Char → Option FloatVal) :
    List (List Char) → Option (Char → Option FloatVal)
  | [] => some sl
  | w :: ws =>
    match processWord sl w with
    | none => none
    | some sl1 => processWords sl1 ws

/-- Rust `str::split_whitespace`: maximal runs of non-whitespace
characters. -/
def splitWs (l : List Char) : List (List Char) :=
  (l.splitOnP Char.isWhitespace).filter (fun w => !w.isEmpty)

/-- The order built by `Order::new_with_id`: id plus, per ingredient, the
requested amount if it is > 0 (each such entry is NotApplied(value) in the
source; the embedding records the value). -/
structure ParsedOrder where
  id : ℕ
  ingredientes : Cafeteria.IngredientType → Option FloatVal

/-- `Order::new_with_id(id, cm, lc, c, ac)`: entries with value > 0 are kept,
keyed CafeMolido/EspumaLeche/Cacao/Agua. -/
def newWithId (id : ℕ) (cm lc c ac : FloatVal) : ParsedOrder :=
  { id := id,
    ingredientes := fun t =>
      match t with
      | .CafeMolido => if cm.gtZero then some cm else none
      | .EspumaLeche => if lc.gtZero then some lc else none
      | .Cacao => if c.gtZero then some c else none
      | .Agua => if ac.gtZero then some ac else none
      | .LecheFria => none
      | .GranosCafe => none }

/-- The `unwrap_or(0.0)` default. -/
def zeroF : FloatVal := .fin 0

/-- Processing of one line of the orders file: run the token loop and build
the order with the calling convention of read_orders,
`new_with_id(id, granos_molidos, espuma_de_leche, cacao, agua)`. -/
def lineOrder (id : ℕ) (line : List Char) : Option ParsedOrder :=
  (processWords (fun _ => none) (splitWs line)).map
    (fun sl =>
      newWithId id ((sl 'M').getD zeroF) ((sl 'E').getD zeroF)
        ((sl 'C').getD zeroF) ((sl 'A').getD zeroF))

/-- The line loop of read_orders, starting at line index `id`. -/
def readOrdersFrom (id : ℕ) : List (List Char) → Option (List ParsedOrder)
  | [] => some []
  | line :: rest =>
    match lineOrder id line with
    | none => none
    | some o =>
      match readOrdersFrom (id + 1) rest with
      | none => none
      | some os => some (o :: os)

/-- `read_orders` on the (already line-split) file contents; `none` is the
ErrorCafeteria return. -/
def readOrders (lines : List (List Char)) : Option (List ParsedOrder) :=
  readOrdersFrom 0 lines

/-- Claim-side notion, from the spec's words: a non-negative decimal number
(digits with an optional fraction, no sign, no exponent, no inf/nan). -/
def isNonNegDecimal (s : List Char) : Bool :=
  let ip := s.takeWhile Char.isDigit
  let rest := s.dropWhile Char.isDigit
  match rest with
  | [] => !ip.isEmpty
  | '.' :: fp => fp.all Char.isDigit && (!ip.isEmpty || !fp.isEmpty)
  | _ => false

/-- The entry a line produces for the slot of `letter`: the last token of the
line starting with that letter, if it parses to a value > 0. -/
def entryFor (letter : Char) (line : List Char) : Option FloatVal :=
  match ((splitWs line).filter (fun w => w.head? = some letter)).getLast? with
  | none => none
  | some w =>
    match parseWord w with
    | none => none
    | some v => if v.gtZero then some v else none

/-- After a successful token loop, each letter slot holds the parse of the
last token of the line that starts with that letter (or its initial value if
there is none). -/
lemma processWords_slot (ws : List (List Char)) :
    ∀ sl0 sl : Char → Option FloatVal, processWords sl0 ws = some sl →
      ∀ c : Char, isOrderLetter c = true →
        sl c = (match (ws.filter (fun w => w.head? = some c)).getLast? with
          | none => sl0 c
          | some w => parseWord w) := by
  induction ws with
  | nil =>
    intro sl0 sl h c _
    simp only [processWords, Option.some.injEq] at h
    subst h
    simp
  | cons w ws ih =>
    intro sl0 sl h c hc
    simp only [processWords] at h
    rcases hpw : processWord sl0 w with _ | sl1 <;> rw [hpw] at h
    · exact absurd h (by simp)
    · have hih := ih sl1 sl h c hc
      rcases hh : w.head? with _ | d <;> simp only [processWord, hh] at hpw
      · have hsl1 : sl1 = sl0 := by
          simpa using hpw.symm
        subst hsl1
        have hpred : ¬ (w.head? = some c) := by
          rw [hh]
          simp
        rw [List.filter_cons_of_neg (by simpa using hpred)]
        exact hih
      · by_cases hd : isOrderLetter d
        · rw [if_pos hd] at hpw
          rcases hpv : parseWord w with _ | v <;> rw [hpv] at hpw
          · exact absurd hpw (by simp)
          · have hsl1 : sl1 = updateSlot sl0 d v := by
              simpa using hpw.symm
            subst hsl1
            by_cases hdc : d = c
            · subst hdc
              have hpred : w.head? = some d := hh
              rw [List.filter_cons_of_pos (by simpa using hpred)]
              rcases hfil : ws.filter (fun u => u.head? = some d) with _ | ⟨x, t⟩
              · rw [hfil] at hih ⊢
                simp only [List.getLast?_singleton]
                simp only [List.getLast?_nil] at hih
                rw [hih, updateSlot, if_pos rfl, hpv]
              · rw [hfil] at hih ⊢
                rw [List.getLast?_cons_cons]
                exact hih
            · have hpred : ¬ (w.head? = some c) := by
                rw [hh]
                simp [hdc]
              rw [List.filter_cons_of_neg (by simpa using hpred)]
              have : updateSlot sl0 d v c = sl0 c := by
                unfold updateSlot
                rw [if_neg (by tauto)]
              rw [this] at hih
              exact hih
        · rw [if_neg hd] at hpw
          have hsl1 : sl1 = sl0 := by
            simpa using hpw.symm
          subst hsl1
          have hdc : d ≠ c := by
            intro hdc
            rw [hdc] at hd
            exact hd hc
          have hpred : ¬ (w.head? = some c) := by
            rw [hh]
            simp [hdc]
          rw [List.filter_cons_of_neg (by simpa using hpred)]
          exact hih

/-- The token loop fails exactly when some token starting with one of the
letters A/M/C/E has an unparseable remainder; the initial slot contents are
irrelevant. -/
lemma processWords_none (ws : List (List Char)) :
    ∀ sl0 : Char → Option FloatVal,
      (processWords sl0 ws = none ↔
        ∃ w ∈ ws, (∃ c, w.head? = some c ∧ isOrderLetter c = true) ∧
          parseWord w = none) := by
  induction ws with
  | nil =>
    intro sl0
    simp [processWords]
  | cons w ws ih =>
    intro sl0
    simp only [processWords]
    rcases hpw : processWord sl0 w with _ | sl1
    · rcases hh : w.head? with _ | d <;> simp only [processWord, hh] at hpw
      · exact absurd hpw (by simp)
      · by_cases hd : isOrderLetter d
        · rw [if_pos hd] at hpw
          rcases hpv : parseWord w with _ | v <;> rw [hpv] at hpw
          · constructor
            · intro _
              exact ⟨w, by simp, ⟨d, hh, hd⟩, hpv⟩
            · intro _
              rfl
          · exact absurd hpw (by simp)
        · rw [if_neg hd] at hpw
          exact absurd hpw (by simp)
    · have hwok : ¬ ((∃ c, w.head? = some c ∧ isOrderLetter c = true) ∧
          parseWord w = none) := by
        rintro ⟨⟨c, hc1, hc2⟩, hpv⟩
        simp only [processWord, hc1] at hpw
        rw [if_pos hc2, hpv] at hpw
        exact absurd hpw (by simp)
      rw [ih sl1]
      constructor
      · rintro ⟨u, hu, hprop⟩
        exact ⟨u, by simp [hu], hprop⟩
      · rintro ⟨u, hu, hprop⟩
        rcases List.mem_cons.mp hu with rfl | hu'
        · exact absurd hprop hwok
        · exact ⟨u, hu', hprop⟩

/-- Per-line success: the produced order has the given id and its entries are
`entryFor` of the four letters; the reloader ingredients never get one. -/
lemma lineOrder_spec (id : ℕ) (line : List Char) (o : ParsedOrder)
    (h : lineOrder id line = some o) :
    o.id = id ∧
    o.ingredientes Cafeteria.IngredientType.Agua = entryFor 'A' line ∧
    o.ingredientes Cafeteria.IngredientType.CafeMolido = entryFor 'M' line ∧
    o.ingredientes Cafeteria.IngredientType.Cacao = entryFor 'C' line ∧
    o.ingredientes Cafeteria.IngredientType.EspumaLeche = entryFor 'E' line ∧
    o.ingredientes Cafeteria.IngredientType.LecheFria = none ∧
    o.ingredientes Cafeteria.IngredientType.GranosCafe = none := by
  unfold lineOrder at h
  rcases hsl : processWords (fun _ => none) (splitWs line) with _ | sl <;> rw [hsl] at h
  · exact absurd h (by simp)
  · have ho : o = newWithId id ((sl 'M').getD zeroF) ((sl 'E').getD zeroF)
        ((sl 'C').getD zeroF) ((sl 'A').getD zeroF) := by
      simpa using h.symm
    subst ho
    have hslot := processWords_slot (splitWs line) (fun _ => none) sl hsl
    have hA := hslot 'A' (by decide)
    have hM := hslot 'M' (by decide)
    have hC := hslot 'C' (by decide)
    have hE := hslot 'E' (by decide)
    have key : ∀ c : Char, isOrderLetter c = true →
        sl c = (match ((splitWs line).filter (fun w => w.head? = some c)).getLast? with
          | none => none
          | some w => parseWord w) →
        (if ((sl c).getD zeroF).gtZero then some ((sl c).getD zeroF) else none)
          = entryFor c line := by
      intro c _ hcslot
      unfold entryFor
      rcases hgl : ((splitWs line).filter (fun w => w.head? = some c)).getLast? with _ | w
      · rw [hgl] at hcslot
        rw [hgl]
        simp only at hcslot
        simp [hcslot, zeroF, FloatVal.gtZero]
      · rw [hgl] at hcslot
        rw [hgl]
        dsimp only
        simp only at hcslot
        rcases hpv : parseWord w with _ | v
        · simp [hcslot, hpv, zeroF, FloatVal.gtZero]
        · simp [hcslot, hpv]
    refine ⟨rfl, ?_, ?_, ?_, ?_, rfl, rfl⟩
    · exact key 'A' (by decide) hA
    · exact key 'M' (by decide) hM
    · exact key 'C' (by decide) hC
    · exact key 'E' (by decide) hE

/-- Per-line failure characterization. -/
lemma lineOrder_none (id : ℕ) (line : List Char) :
    lineOrder id line = none ↔
      ∃ w ∈ splitWs line, (∃ c, w.head? = some c ∧ isOrderLetter c = true) ∧
        parseWord w = none := by
  unfold lineOrder
  rw [← processWords_none (splitWs line) (fun _ => none)]
  rcases h : processWords (fun _ => none) (splitWs line) with _ | sl <;> simp [h]

/-- Success of the line loop: one order per line, ids consecutive from the
start index, and each order is the `lineOrder` of its line. -/
lemma readOrdersFrom_spec (lines : List (List Char)) :
    ∀ k res, readOrdersFrom k lines = some res →
      res.length = lines.length ∧
      res.map (fun o => o.id) = List.range' k lines.length ∧
      ∀ i line o, lines.get? i = some line → res.get? i = some o →
        lineOrder (k + i) line = some o := by
  induction lines with
  | nil =>
    intro k res h
    simp only [readOrdersFrom, Option.some.injEq] at h
    subst h
    refine ⟨rfl, rfl, ?_⟩
    intro i line o h1 _
    exact absurd h1 (by simp)
  | cons line rest ih =>
    intro k res h
    simp only [readOrdersFrom] at h
    rcases h1 : lineOrder k line with _ | o <;> rw [h1] at h
    · exact absurd h (by simp)
    · rcases h2 : readOrdersFrom (k + 1) rest with _ | os <;> rw [h2] at h
      · exact absurd h (by simp)
      · have hres : res = o :: os := by
          simpa using h.symm
        subst hres
        obtain ⟨hlen, hids, hline⟩ := ih (k + 1) os h2
        refine ⟨by simp [hlen], ?_, ?_⟩
        · have hid : o.id = k := (lineOrder_spec k line o h1).1
          simp [List.range', hid, hids]
        · intro i l oo hl ho
          cases i with
          | zero =>
            simp only [List.get?] at hl ho
            have hll : line = l := by simpa using hl
            have hoo : o = oo := by simpa using ho
            subst hll
            subst hoo
            simpa using h1
          | succ j =>
            simp only [List.get?] at hl ho
            have := hline j l oo hl ho
            have harith : k + (j + 1) = k + 1 + j := by omega
            rw [harith]
            exact this

/-- Failure of the line loop: some line has a failing A/M/C/E token
(independently of the starting index). -/
lemma readOrdersFrom_none (lines : List (List Char)) :
    ∀ k, (readOrdersFrom k lines = none ↔
      ∃ line ∈ lines, ∃ w ∈ splitWs line,
        (∃ c, w.head? = some c ∧ isOrderLetter c = true) ∧ parseWord w = none) := by
  induction lines with
  | nil => intro k; simp [readOrdersFrom]
  | cons line rest ih =>
    intro k
    simp only [readOrdersFrom]
    rcases h1 : lineOrder k line with _ | o
    · have hex := (lineOrder_none k line).mp h1
      constructor
      · intro _
        exact ⟨line, by simp, hex⟩
      · intro _
        rfl
    · have hnot : ¬ (∃ w ∈ splitWs line,
          (∃ c, w.head? = some c ∧ isOrderLetter c = true) ∧ parseWord w = none) := by
        intro hex
        have := (lineOrder_none k line).mpr hex
        rw [h1] at this
        exact absurd this (by simp)
      rcases h2 : readOrdersFrom (k + 1) rest with _ | os
      · have hex := (ih (k + 1)).mp h2
        constructor
        · intro _
          rcases hex with ⟨l', hl', hprop⟩
          exact ⟨l', by simp [hl'], hprop⟩
        · intro _
          rfl
      · constructor
        · intro hcontr
          exact absurd hcontr (by simp)
        · rintro ⟨l', hl', hprop⟩
          rcases List.mem_cons.mp hl' with rfl | hl''
          · exact absurd hprop hnot
          · have := (ih (k + 1)).mpr ⟨l', hl'', hprop⟩
            rw [h2] at this
            exact absurd this (by simp)

end FileOrders

namespace Cafeteria

/-- Unfolding of `have_sufficient_quantity = true` for the non-rechargeable
container: the order's entry is NotApplied v with 0 < v ≤ quantity, and the
quantity is non-negative. -/
lemma nr_have_sufficient_spec (c : NoRechargableConteiner) (o : Order)
    (h : c.have_sufficient_quantity o = true) :
    ∃ v : ℚ, o.ingredientes c.tipo = some (.NotApplied v) ∧
      0 < v ∧ v ≤ c.quantity ∧ 0 ≤ c.quantity := by
  unfold NoRechargableConteiner.have_sufficient_quantity at h
  by_cases hq : c.quantity < 0
  · simp [hq] at h
  · simp only [hq, if_false] at h
    unfold Order.can_satisfy at h
    rcases he : o.ingredientes c.tipo with _ | e
    · simp [he] at h
    · cases e with
      | Applied w => simp [he] at h
      | NotApplied w =>
        refine ⟨w, rfl, ?_, ?_, by linarith⟩ <;> simp [he] at h <;> tauto
      | NoEnoughResourceContainer => simp [he] at h

/-- One non-rechargeable apply removes exactly `applied_amount` grams. -/
lemma nr_step_quantity (c : NoRechargableConteiner) (o : Order) :
    (c.apply_ingredient o).1.quantity = c.quantity - c.applied_amount o := by
  by_cases h : c.have_sufficient_quantity o
  · simp [NoRechargableConteiner.apply_ingredient, NoRechargableConteiner.applied_amount, h]
  · simp [NoRechargableConteiner.apply_ingredient, NoRechargableConteiner.applied_amount, h]

/-- The amount applied by one non-rechargeable step is non-negative. -/
lemma nr_applied_nonneg (c : NoRechargableConteiner) (o : Order) :
    0 ≤ c.applied_amount o := by
  by_cases h : c.have_sufficient_quantity o
  · obtain ⟨v, he, hv, _, _⟩ := nr_have_sufficient_spec c o h
    simp [NoRechargableConteiner.applied_amount, h, Order.apply, he]
    linarith
  · simp [NoRechargableConteiner.applied_amount, h]

/-- A single non-rechargeable apply never increases the quantity. -/
lemma nr_step_mono (c : NoRechargableConteiner) (o : Order) :
    (c.apply_ingredient o).1.quantity ≤ c.quantity := by
  have := nr_step_quantity c o
  have := nr_applied_nonneg c o
  linarith

/-- A drained non-rechargeable container stays at quantity 0 and is marked
NoEnoughResource by every subsequent apply. -/
lemma nr_zero_absorb (c : NoRechargableConteiner) (o : Order) (h : c.quantity = 0) :
    (c.apply_ingredient o).1.quantity = 0 ∧
    (c.apply_ingredient o).1.state = StateOfConteiner.NoEnoughResource := by
  have hs : c.have_sufficient_quantity o = false := by
    unfold NoRechargableConteiner.have_sufficient_quantity
    rw [h]
    unfold Order.can_satisfy
    rcases he : o.ingredientes c.tipo with _ | e
    · simp [he]
    · cases e with
      | Applied w => simp [he]
      | NotApplied w => simp [he]
      | NoEnoughResourceContainer => simp [he]
  simp [NoRechargableConteiner.apply_ingredient, hs, h]

/-- Monotonicity over a whole run. -/
lemma nrRun_mono (orders : List Order) :
    ∀ c : NoRechargableConteiner, (nrRun c orders).quantity ≤ c.quantity := by
  induction orders with
  | nil => intro c; exact le_refl _
  | cons o rest ih =>
    intro c
    calc (nrRun (c.apply_ingredient o).1 rest).quantity
        ≤ (c.apply_ingredient o).1.quantity := ih _
      _ ≤ c.quantity := nr_step_mono c o

/-- Conservation over a whole run. -/
lemma nrRun_conservation (orders : List Order) :
    ∀ c : NoRechargableConteiner,
      c.quantity - (nrRun c orders).quantity = nrApplied c orders := by
  induction orders with
  | nil => intro c; simp [nrRun, nrApplied]
  | cons o rest ih =>
    intro c
    have h1 := nr_step_quantity c o
    have h2 := ih (c.apply_ingredient o).1
    simp only [nrRun, nrApplied]
    linarith

/-- A run from a drained container keeps quantity 0, and ends NoEnoughResource
whenever at least one apply happened. -/
lemma nrRun_zero (orders : List Order) :
    ∀ c : NoRechargableConteiner, c.quantity = 0 →
      (nrRun c orders).quantity = 0 ∧
      (orders ≠ [] → (nrRun c orders).state = StateOfConteiner.NoEnoughResource) := by
  induction orders with
  | nil => intro c h; exact ⟨h, by simp⟩
  | cons o rest ih =>
    intro c h
    obtain ⟨hq, hs⟩ := nr_zero_absorb c o h
    rcases rest with _ | ⟨o2, rest2⟩
    · exact ⟨hq, fun _ => hs⟩
    · obtain ⟨hq2, hs2⟩ := ih (c.apply_ingredient o).1 hq
      exact ⟨hq2, fun _ => hs2 (by simp)⟩

/-- Splitting a run. -/
lemma nrRun_append (pre : List Order) :
    ∀ (c : NoRechargableConteiner) (post : List Order),
      nrRun c (pre ++ post) = nrRun (nrRun c pre) post := by
  induction pre with
  | nil => intro c post; rfl
  | cons o rest ih => intro c post; simp only [List.cons_append, nrRun]; exact ih _ _

end Cafeteria

/- ====================== claim theorems (codec) ====================== -/

/-- C9: for every message kind with numeric code 0..9, decoding the first
byte of its serialized record recovers the kind; DISCONNECT (code 10)
serializes with first byte '1' and decodes as PREPARE; and the NodoHandler's
PREPARE branch is its disconnect handler. -/
theorem C9_first_byte_roundtrip :
    (∀ m : Ledger.Mensaje, m.toBytes ≤ 9 →
      Ledger.Mensaje.fromBytes (Ledger.firstSerializedByte m) = m) ∧
    Ledger.Mensaje.fromBytes (Ledger.firstSerializedByte Ledger.Mensaje.DISCONNECT)
      = Ledger.Mensaje.PREPARE ∧
    Ledger.nodoHandlerDispatch Ledger.Mensaje.PREPARE
      = Ledger.HandlerAction.DisconnectCoordinator := by
  refine ⟨?_, by decide, by decide⟩
  intro m h
  cases m <;> first | rfl | exact absurd h (by decide)

/-- Witness for C9 at the concrete kind STARTER. -/
theorem C9_first_byte_roundtrip_witness :
    Ledger.Mensaje.STARTER.toBytes ≤ 9 ∧
    Ledger.Mensaje.fromBytes (Ledger.firstSerializedByte Ledger.Mensaje.STARTER)
      = Ledger.Mensaje.STARTER :=
  ⟨by decide, C9_first_byte_roundtrip.1 Ledger.Mensaje.STARTER (by decide)⟩

/- ====================== claim theorems (bully) ====================== -/

/-- C7 counterexample: a node that self-promoted through the election timeout
keeps `soy_coordinador = true` after handling Coordinator(src) with src not
equal to its own id, so the handler does not set the leader flag to
(src = self_id) as the claim states. -/
theorem C7_coordinator_counterexample :
    (Ledger.handleCoordinatorMsg
        (Ledger.handleTimeoutMsg
          { estado := Ledger.BullyState.WaitingOkey, conectado := true,
            id_nodo := 1, soy_coordinador := false }).1 2).1.soy_coordinador = true ∧
    (2 : ℕ) ≠ 1 := by
  constructor
  · rfl
  · decide

/- ====================== claim theorems (transaction ids) ====================== -/

/-- C3 counterexample: the triples (1, 23, 4) and (12, 3, 4) have distinct
node ids but concatenate to the same transaction id 1234, so the
construction is not injective for arbitrary distinct node ids. -/
theorem C3_concat_id_counterexample :
    Ledger.newIdTransaccion 1 23 4 = Ledger.newIdTransaccion 12 3 4 ∧ (1 : ℕ) ≠ 12 := by
  constructor
  · norm_num [Ledger.newIdTransaccion, Ledger.decDigits,
      Nat.ofDigits_cons, Nat.ofDigits_nil]
  · decide

/-- C3 amended: for node ids that are single nonzero decimal digits (1..9,
which covers the system's range 1..CANT_MAX_NODOS = 3), distinct node ids
give distinct transaction ids, whatever the machine ids and counters. -/
theorem C3_transaction_id_injective (n1 m1 c1 n2 m2 c2 : ℕ)
    (h11 : 1 ≤ n1) (h19 : n1 ≤ 9) (h21 : 1 ≤ n2) (h29 : n2 ≤ 9) (hne : n1 ≠ n2) :
    Ledger.newIdTransaccion n1 m1 c1 ≠ Ledger.newIdTransaccion n2 m2 c2 := by
  intro heq
  have d1 := Ledger.digits_newIdTransaccion n1 m1 c1 h11 h19
  have d2 := Ledger.digits_newIdTransaccion n2 m2 c2 h21 h29
  rw [heq] at d1
  have hLL := d1.symm.trans d2
  have hlast := congrArg List.getLast? hLL
  simp only [List.getLast?_concat, Option.some.injEq] at hlast
  exact hne hlast

/-- Witness for C3 amended at node ids 1 and 2, machine id 2, counter 3. -/
theorem C3_transaction_id_injective_witness :
    Ledger.newIdTransaccion 1 2 3 ≠ Ledger.newIdTransaccion 2 2 3 :=
  C3_transaction_id_injective 1 2 3 2 2 3 (by norm_num) (by norm_num)
    (by norm_num) (by norm_num) (by norm_num)

/- ====================== claim theorems (coordinator 2PC) ====================== -/

/-- C1 counterexample: three concrete runs of the coordinator refute the
claim as stated.  Run 1 (protocol-clean, no disconnect): after a completed
abort round the popped Deduct stays in state Abort forever while the
promoted successor for the same account enters Wait, so two Deducts of one
account are in the claimed set, with Abort included.  Run 2: a Yes delivered
for a queued non-head Deduct drives it to Execute while the head is in Wait,
so arbitrary message sequences also break the set without Abort.  Run 3: a
follower-disconnect aborts a queued non-head Deduct in place and the
following OkAbort round pops the wrong queue head, leaving two Deducts of
one account both in Wait — the dormancy clause fails as well. -/
theorem C1_serialisation_counterexample :
    ((Ledger.coordRun Ledger.initialCoordinador
        [Ledger.CoordMsg.addNodo 1, Ledger.CoordMsg.starter 1 5 100 0,
         Ledger.CoordMsg.starter 1 5 200 1, Ledger.CoordMsg.abortMsg 1 5 100 0,
         Ledger.CoordMsg.okeyAbort 1 5 100 0]).map
      (fun s =>
        ((Ledger.alookup s.transacciones 100).map (fun t => (t.id_cuenta, t.tipo, t.status)),
         (Ledger.alookup s.transacciones 200).map (fun t => (t.id_cuenta, t.tipo, t.status))))
      = some (some (5, Ledger.CommitType.RESTA, Ledger.TransactionStateCoord.Abort),
              some (5, Ledger.CommitType.RESTA, Ledger.TransactionStateCoord.Wait))) ∧
    ((Ledger.coordRun Ledger.initialCoordinador
        [Ledger.CoordMsg.addNodo 1, Ledger.CoordMsg.starter 1 5 100 0,
         Ledger.CoordMsg.starter 1 5 200 1, Ledger.CoordMsg.yes 1 5 200 1]).map
      (fun s =>
        ((Ledger.alookup s.transacciones 100).map (fun t => (t.id_cuenta, t.tipo, t.status)),
         (Ledger.alookup s.transacciones 200).map (fun t => (t.id_cuenta, t.tipo, t.status))))
      = some (some (5, Ledger.CommitType.RESTA, Ledger.TransactionStateCoord.Wait),
              some (5, Ledger.CommitType.RESTA, Ledger.TransactionStateCoord.Execute))) ∧
    ((Ledger.coordRun Ledger.initialCoordinador
        [Ledger.CoordMsg.addNodo 1, Ledger.CoordMsg.addNodo 2,
         Ledger.CoordMsg.starter 1 5 100 0, Ledger.CoordMsg.starter 2 5 200 0,
         Ledger.CoordMsg.disconnectNodo 2, Ledger.CoordMsg.okeyAbort 1 5 200 0]).map
      (fun s =>
        ((Ledger.alookup s.transacciones 100).map (fun t => (t.id_cuenta, t.tipo, t.status)),
         (Ledger.alookup s.transacciones 200).map (fun t => (t.id_cuenta, t.tipo, t.status)),
         (Ledger.alookup s.cola 5)))
      = some (some (5, Ledger.CommitType.RESTA, Ledger.TransactionStateCoord.Wait),
              some (5, Ledger.CommitType.RESTA, Ledger.TransactionStateCoord.Wait),
              some [200])) ∧
    (100 : ℕ) ≠ 200 := by
  refine ⟨?_, ?_, ?_, by decide⟩ <;> rfl

/- ====================== claim theorems (replica balance) ====================== -/

/-- C2 counterexample: delivering Commit(Deduct, amount 10001) for account 1
to a freshly started replica (balance SALDO_INICIAL = 10000) makes the
unguarded u32 subtraction of the COMMIT branch wrap to 2^32 - 1: the
precondition amount <= balance does not hold whenever the Commit handler
subtracts, it must be supplied by the leader. -/
theorem C2_commit_underflow_counterexample :
    (Ledger.nodoHandleLeaderMsg (Ledger.initialNodo 2 1)
        (Ledger.LeaderMsg.commitMsg 1 1 999 Ledger.CommitType.RESTA 10001 0)).map
      (fun r => (Ledger.alookup r.1.cuentas 1).map (fun c => c.saldo))
      = some (some 4294967295) ∧
    Ledger.SALDO_INICIAL < 10001 ∧
    (Ledger.SALDO_INICIAL : ℤ) - 10001 < 0 := by
  refine ⟨?_, by decide, by decide⟩
  rfl

/-- C2 amended: (1) an Execute whose transaction amount exceeds the account's
balance sets the local transaction to Abort and emits exactly Error to the
machine and Abort to the leader; (2) a Commit of a Deduct whose amount is at
most the balance subtracts exactly, leaves the balance non-negative, unlocks
the account and replies Ok; (3) when the amount exceeds the balance the same
handler wraps modulo 2^32 instead — no-overdraft at a replica therefore
holds only under the precondition amount <= balance, which the Commit branch
itself never checks. -/
theorem C2_execute_gate_and_commit :
    (∀ (n : Ledger.Nodo) (inode icta itxn icaf : ℕ)
        (txn : Ledger.Transaction) (cuenta : Ledger.Cuenta),
      Ledger.alookup n.transacciones_resta itxn = some txn →
      Ledger.alookup n.cuentas icta = some cuenta →
      cuenta.saldo < txn.cantidad →
      Ledger.nodoHandleLeaderMsg n (Ledger.LeaderMsg.execute inode icta itxn icaf)
        = some ({ n with
            transacciones_resta := Ledger.amodify n.transacciones_resta itxn
              (fun t => { t with state := Ledger.TransactionStateNodo.Abort }) },
          [Ledger.NodoOutput.toCafetera txn.socket false,
           Ledger.NodoOutput.sendAbort n.id_nodo icta itxn icaf]) ∧
      Ledger.alookup (Ledger.amodify n.transacciones_resta itxn
          (fun t => { t with state := Ledger.TransactionStateNodo.Abort })) itxn
        = some { txn with state := Ledger.TransactionStateNodo.Abort }) ∧
    (∀ (n : Ledger.Nodo) (inode icta itxn cantidad icaf : ℕ) (cuenta : Ledger.Cuenta),
      Ledger.alookup n.cuentas icta = some cuenta →
      cantidad ≤ cuenta.saldo →
      cuenta.saldo < Ledger.U32MOD →
      ∃ n' outs,
        Ledger.nodoHandleLeaderMsg n
            (Ledger.LeaderMsg.commitMsg inode icta itxn Ledger.CommitType.RESTA cantidad icaf)
          = some (n', outs) ∧
        Ledger.alookup n'.cuentas icta
          = some { cuenta with blocked := false, saldo := cuenta.saldo - cantidad } ∧
        Ledger.NodoOutput.sendOk n.id_nodo icta itxn icaf ∈ outs) ∧
    (∀ (n : Ledger.Nodo) (inode icta itxn cantidad icaf : ℕ) (cuenta : Ledger.Cuenta),
      Ledger.alookup n.cuentas icta = some cuenta →
      cuenta.saldo < cantidad →
      cantidad < Ledger.U32MOD →
      ∃ n' outs,
        Ledger.nodoHandleLeaderMsg n
            (Ledger.LeaderMsg.commitMsg inode icta itxn Ledger.CommitType.RESTA cantidad icaf)
          = some (n', outs) ∧
        Ledger.alookup n'.cuentas icta
          = some { cuenta with
                   blocked := false,
                   saldo := cuenta.saldo + Ledger.U32MOD - cantidad }) := by
  refine ⟨?_, ?_, ?_⟩
  · intro n inode icta itxn icaf txn cuenta h1 h2 h3
    constructor
    · simp only [Ledger.nodoHandleLeaderMsg]
      rw [h1, h2]
      simp only
      rw [if_pos h3]
    · rw [Ledger.alookup_amodify, if_pos rfl, h1]
      rfl
  · intro n inode icta itxn cantidad icaf cuenta h1 h2 h3
    have hsub : Ledger.subU32 cuenta.saldo cantidad = cuenta.saldo - cantidad := by
      unfold Ledger.subU32 Ledger.U32MOD
      unfold Ledger.U32MOD at h3
      omega
    refine ⟨{ n with
        cuentas := Ledger.amodify n.cuentas icta
          (fun c => { c with blocked := false, saldo := Ledger.subU32 c.saldo cantidad }),
        transacciones_resta := Ledger.amodify n.transacciones_resta itxn
          (fun t => { t with state := Ledger.TransactionStateNodo.Accepted }) },
      (match Ledger.alookup n.transacciones_resta itxn with
        | some t => [Ledger.NodoOutput.toCafetera t.socket true]
        | none => []) ++ [Ledger.NodoOutput.sendOk n.id_nodo icta itxn icaf],
      ?_, ?_, ?_⟩
    · simp only [Ledger.nodoHandleLeaderMsg]
      rw [h1]
      simp only
      rw [if_neg (by decide)]
    · simp only
      rw [Ledger.alookup_amodify, if_pos rfl, h1]
      simp [hsub]
    · simp
  · intro n inode icta itxn cantidad icaf cuenta h1 h2 h3
    have hsub : Ledger.subU32 cuenta.saldo cantidad
        = cuenta.saldo + Ledger.U32MOD - cantidad := by
      unfold Ledger.subU32 Ledger.U32MOD
      unfold Ledger.U32MOD at h3
      omega
    refine ⟨{ n with
        cuentas := Ledger.amodify n.cuentas icta
          (fun c => { c with blocked := false, saldo := Ledger.subU32 c.saldo cantidad }),
        transacciones_resta := Ledger.amodify n.transacciones_resta itxn
          (fun t => { t with state := Ledger.TransactionStateNodo.Accepted }) },
      (match Ledger.alookup n.transacciones_resta itxn with
        | some t => [Ledger.NodoOutput.toCafetera t.socket true]
        | none => []) ++ [Ledger.NodoOutput.sendOk n.id_nodo icta itxn icaf],
      ?_, ?_⟩
    · simp only [Ledger.nodoHandleLeaderMsg]
      rw [h1]
      simp only
      rw [if_neg (by decide)]
    · simp only
      rw [Ledger.alookup_amodify, if_pos rfl, h1]
      simp [hsub]

/-- Witness for C2 amended: part 1 at a replica holding one Deduct of 200
against balance 100; parts 2 and 3 at the fresh replica (balance 10000) with
Commit amounts 400 and 10001. -/
theorem C2_execute_gate_and_commit_witness :
    let txn : Ledger.Transaction :=
      { socket := 7, cantidad := 200, state := Ledger.TransactionStateNodo.Wait,
        id_cafetera := 0, id_cuenta := 1 }
    let cuenta : Ledger.Cuenta := { blocked := true, saldo := 100, transacciones := [] }
    let n : Ledger.Nodo :=
      { cuentas := [(1, cuenta)], transacciones_resta := [(5, txn)],
        id_nodo := 2, id_orden := 1, conectado := true,
        transacciones_suma := [], id_coordinador := 1 }
    (Ledger.nodoHandleLeaderMsg n (Ledger.LeaderMsg.execute 2 1 5 0)
      = some ({ n with
          transacciones_resta := Ledger.amodify n.transacciones_resta 5
            (fun t => { t with state := Ledger.TransactionStateNodo.Abort }) },
        [Ledger.NodoOutput.toCafetera 7 false, Ledger.NodoOutput.sendAbort 2 1 5 0])) ∧
    (∃ n' outs,
      Ledger.nodoHandleLeaderMsg (Ledger.initialNodo 2 1)
          (Ledger.LeaderMsg.commitMsg 1 1 9 Ledger.CommitType.RESTA 400 0)
        = some (n', outs) ∧
      Ledger.alookup n'.cuentas 1
        = some { blocked := false, saldo := 9600, transacciones := [] } ∧
      Ledger.NodoOutput.sendOk 2 1 9 0 ∈ outs) ∧
    (∃ n' outs,
      Ledger.nodoHandleLeaderMsg (Ledger.initialNodo 2 1)
          (Ledger.LeaderMsg.commitMsg 1 1 9 Ledger.CommitType.RESTA 10001 0)
        = some (n', outs) ∧
      Ledger.alookup n'.cuentas 1
        = some { blocked := false, saldo := 4294967295, transacciones := [] }) := by
  intro txn cuenta n
  refine ⟨?_, ?_, ?_⟩
  · have h := (C2_execute_gate_and_commit.1 n 2 1 5 0 txn cuenta rfl rfl (by decide)).1
    simpa using h
  · have h := C2_execute_gate_and_commit.2.1 (Ledger.initialNodo 2 1) 1 1 9 400 0
      { blocked := false, saldo := Ledger.SALDO_INICIAL, transacciones := [] }
      rfl (by decide) (by decide)
    simpa [Ledger.SALDO_INICIAL] using h
  · have h := C2_execute_gate_and_commit.2.2 (Ledger.initialNodo 2 1) 1 1 9 10001 0
      { blocked := false, saldo := Ledger.SALDO_INICIAL, transacciones := [] }
      rfl (by decide) (by decide)
    simpa [Ledger.SALDO_INICIAL, Ledger.U32MOD] using h

/- ====================== claim theorems (containers) ====================== -/

/-- C4: evaluation of the rechargeable apply at the failing input of the
claim.  With capacity 100, quantity 20, reload pool 30 and an order needing
40 grams, `can_reload_for_order` holds (40 <= 20 + 30), so `reload_container`
runs and subtracts the full headroom 80 from the pool of 30 without checking
it first: the pool ends at -50, contradicting the claimed headroom check,
partial reload and the consequence that the pool stays non-negative. -/
theorem C4_reload_underflow :
    let o : Cafeteria.Order :=
      { id := 0,
        ingredientes := fun t =>
          if t = Cafeteria.IngredientType.CafeMolido
          then some (Cafeteria.IngredientStateOfOrder.NotApplied 40) else none,
        status := Cafeteria.OrderState.InProgress }
    let c : Cafeteria.RechargableConteiner :=
      { tipo := Cafeteria.IngredientType.CafeMolido, capacity := 100, quantity := 20,
        quantity_to_recharge := (Cafeteria.IngredientType.GranosCafe, 30),
        state := Cafeteria.StateOfConteiner.Free }
    (c.apply_ingredient o).1.quantity_to_recharge.2 = -50 ∧
    (c.apply_ingredient o).1.quantity_to_recharge.2 < 0 ∧
    (c.apply_ingredient o).1.quantity = 60 := by
  simp only [Cafeteria.RechargableConteiner.apply_ingredient,
    Cafeteria.RechargableConteiner.belongs_to_range_capacities,
    Cafeteria.RechargableConteiner.have_sufficient_quantity,
    Cafeteria.RechargableConteiner.can_reload_for_order,
    Cafeteria.RechargableConteiner.reload_container,
    Cafeteria.Order.can_satisfy, Cafeteria.Order.apply]
  norm_num

/-- C5: for each container kind, an order whose pending request for the
container's ingredient exceeds the capacity gets that ingredient flagged
NoEnoughResourceContainer and the container's quantity (and reload pool) is
unchanged.  The non-rechargeable container has no explicit capacity check,
so there the conclusion additionally needs its invariant quantity <=
capacity. -/
theorem C5_capacity_exceeded :
    (∀ (c : Cafeteria.InfinityConteiner) (o : Cafeteria.Order) (q : ℚ),
      o.ingredientes c.tipo = some (Cafeteria.IngredientStateOfOrder.NotApplied q) →
      c.capacity < q → 0 ≤ c.capacity →
      (c.apply_ingredient o).1.quantity = c.quantity ∧
      (c.apply_ingredient o).2.ingredientes c.tipo
        = some Cafeteria.IngredientStateOfOrder.NoEnoughResourceContainer) ∧
    (∀ (c : Cafeteria.RechargableConteiner) (o : Cafeteria.Order) (q : ℚ),
      o.ingredientes c.tipo = some (Cafeteria.IngredientStateOfOrder.NotApplied q) →
      c.capacity < q → 0 ≤ c.capacity →
      (c.apply_ingredient o).1.quantity = c.quantity ∧
      (c.apply_ingredient o).1.quantity_to_recharge = c.quantity_to_recharge ∧
      (c.apply_ingredient o).2.ingredientes c.tipo
        = some Cafeteria.IngredientStateOfOrder.NoEnoughResourceContainer) ∧
    (∀ (c : Cafeteria.NoRechargableConteiner) (o : Cafeteria.Order) (q : ℚ),
      o.ingredientes c.tipo = some (Cafeteria.IngredientStateOfOrder.NotApplied q) →
      c.capacity < q → c.quantity ≤ c.capacity →
      (c.apply_ingredient o).1.quantity = c.quantity ∧
      (c.apply_ingredient o).2.ingredientes c.tipo
        = some Cafeteria.IngredientStateOfOrder.NoEnoughResourceContainer) := by
  refine ⟨?_, ?_, ?_⟩
  · intro c o q he hcap _
    have hb : c.belongs_to_range_capacities o = false := by
      simp [Cafeteria.InfinityConteiner.belongs_to_range_capacities,
        Cafeteria.Order.can_satisfy, he]
      intro _
      linarith
    simp [Cafeteria.InfinityConteiner.apply_ingredient, hb,
      Cafeteria.Order.set_no_enough_resource_container, Cafeteria.insertIng]
  · intro c o q he hcap _
    have hb : c.belongs_to_range_capacities o = false := by
      simp [Cafeteria.RechargableConteiner.belongs_to_range_capacities,
        Cafeteria.Order.can_satisfy, he]
      intro _
      linarith
    simp [Cafeteria.RechargableConteiner.apply_ingredient, hb,
      Cafeteria.Order.set_no_enough_resource_container, Cafeteria.insertIng]
  · intro c o q he hcap hqc
    have hb : c.have_sufficient_quantity o = false := by
      unfold Cafeteria.NoRechargableConteiner.have_sufficient_quantity
      by_cases hneg : c.quantity < 0
      · simp [hneg]
      · simp [hneg, Cafeteria.Order.can_satisfy, he]
        intro _
        linarith
    simp [Cafeteria.NoRechargableConteiner.apply_ingredient, hb,
      Cafeteria.Order.set_no_enough_resource_container, Cafeteria.insertIng]

/-- Witness for C5 at concrete containers of each kind (capacity 100,
request 140). -/
theorem C5_capacity_exceeded_witness :
    let o : Cafeteria.Order :=
      { id := 0,
        ingredientes := fun t =>
          if t = Cafeteria.IngredientType.Agua
          then some (Cafeteria.IngredientStateOfOrder.NotApplied 140) else none,
        status := Cafeteria.OrderState.InProgress }
    let ci : Cafeteria.InfinityConteiner :=
      { tipo := Cafeteria.IngredientType.Agua, capacity := 100, quantity := 100 }
    let cr : Cafeteria.RechargableConteiner :=
      { tipo := Cafeteria.IngredientType.Agua, capacity := 100, quantity := 100,
        quantity_to_recharge := (Cafeteria.IngredientType.LecheFria, 200),
        state := Cafeteria.StateOfConteiner.Free }
    let cn : Cafeteria.NoRechargableConteiner :=
      { tipo := Cafeteria.IngredientType.Agua, capacity := 100, quantity := 100,
        state := Cafeteria.StateOfConteiner.Free }
    ((ci.apply_ingredient o).1.quantity = ci.quantity ∧
      (ci.apply_ingredient o).2.ingredientes ci.tipo
        = some Cafeteria.IngredientStateOfOrder.NoEnoughResourceContainer) ∧
    ((cr.apply_ingredient o).1.quantity = cr.quantity ∧
      (cr.apply_ingredient o).1.quantity_to_recharge = cr.quantity_to_recharge ∧
      (cr.apply_ingredient o).2.ingredientes cr.tipo
        = some Cafeteria.IngredientStateOfOrder.NoEnoughResourceContainer) ∧
    ((cn.apply_ingredient o).1.quantity = cn.quantity ∧
      (cn.apply_ingredient o).2.ingredientes cn.tipo
        = some Cafeteria.IngredientStateOfOrder.NoEnoughResourceContainer) := by
  refine ⟨?_, ?_, ?_⟩
  · exact C5_capacity_exceeded.1 _ _ 140 (by simp) (by norm_num) (by norm_num)
  · exact C5_capacity_exceeded.2.1 _ _ 140 (by simp) (by norm_num) (by norm_num)
  · exact C5_capacity_exceeded.2.2 _ _ 140 (by simp) (by norm_num) (by norm_num)

/-- C6: over any finite sequence of applies on a non-rechargeable container
the quantity is non-increasing, the total decrease equals the sum of the
amounts applied to orders, and once the quantity is 0 every later apply
leaves it 0 with state NoEnoughResource (the code's Depleted). -/
theorem C6_nonrechargeable_run
    (c : Cafeteria.NoRechargableConteiner) (orders pre post : List Cafeteria.Order) :
    (Cafeteria.nrRun c orders).quantity ≤ c.quantity ∧
    c.quantity - (Cafeteria.nrRun c orders).quantity = Cafeteria.nrApplied c orders ∧
    ((Cafeteria.nrRun c pre).quantity = 0 → post ≠ [] →
      (Cafeteria.nrRun c (pre ++ post)).quantity = 0 ∧
      (Cafeteria.nrRun c (pre ++ post)).state
        = Cafeteria.StateOfConteiner.NoEnoughResource) := by
  refine ⟨Cafeteria.nrRun_mono orders c, Cafeteria.nrRun_conservation orders c, ?_⟩
  intro h0 hpost
  rw [Cafeteria.nrRun_append]
  obtain ⟨hq, hs⟩ := Cafeteria.nrRun_zero post (Cafeteria.nrRun c pre) h0
  exact ⟨hq, hs hpost⟩

/-- Witness for C6: a drained cocoa container (quantity 0) receives one more
order; the quantity stays 0 and the state is NoEnoughResource. -/
theorem C6_nonrechargeable_run_witness :
    let o : Cafeteria.Order :=
      { id := 0,
        ingredientes := fun t =>
          if t = Cafeteria.IngredientType.Cacao
          then some (Cafeteria.IngredientStateOfOrder.NotApplied 1) else none,
        status := Cafeteria.OrderState.InProgress }
    let c : Cafeteria.NoRechargableConteiner :=
      { tipo := Cafeteria.IngredientType.Cacao, capacity := 10, quantity := 0,
        state := Cafeteria.StateOfConteiner.Free }
    (Cafeteria.nrRun c ([] ++ [o])).quantity = 0 ∧
    (Cafeteria.nrRun c ([] ++ [o])).state
      = Cafeteria.StateOfConteiner.NoEnoughResource := by
  intro o c
  exact (C6_nonrechargeable_run c [o] [] [o]).2.2 rfl (by simp)

/-- C10: whenever at least one principal container is Free and required by
the order with pending amount > 0 (`order_is_processable`, the condition the
dispenser holds under the ContainersStates lock from the wait through the
selection), `find_rng_any_container_free_for` returns Ok with the ingredient
type of such a container for every value the random draw can produce, so the
declared error branch is unreachable; on an empty candidate set the function
panics inside `gen_range(0, 0)` (modelled `none`) rather than returning the
Err. -/
theorem C10_find_rng_safe :
    (∀ (s : Cafeteria.ContainersStates) (o : Cafeteria.Order) (r : ℕ),
      s.order_is_processable o = true →
      r < (Cafeteria.candidatesFreeFor s o).length →
      ∃ t : Cafeteria.IngredientType,
        s.find_rng_any_container_free_for o r = some (Except.ok t) ∧
        (∃ p ∈ s.principal_conteiners,
          p.1 = t ∧ p.2.1.is_free = true ∧ o.requiere p.1 = true)) ∧
    (∀ (s : Cafeteria.ContainersStates) (o : Cafeteria.Order) (r : ℕ),
      Cafeteria.candidatesFreeFor s o = [] →
      s.find_rng_any_container_free_for o r = none) := by
  constructor
  · intro s o r hproc hr
    rcases hget : (Cafeteria.candidatesFreeFor s o).get? r with _ | ele
    · exact absurd (List.get?_eq_none.mp hget) (by omega)
    · refine ⟨ele, ?_, ?_⟩
      · unfold Cafeteria.ContainersStates.find_rng_any_container_free_for
        rw [if_neg (by omega)]
        rw [hget]
      · have hmem : ele ∈ Cafeteria.candidatesFreeFor s o := List.get?_mem hget
        unfold Cafeteria.candidatesFreeFor at hmem
        rcases List.mem_map.mp hmem with ⟨p, hpf, hpt⟩
        rcases List.mem_filter.mp hpf with ⟨hps, hpred⟩
        rcases (Bool.and_eq_true _ _).mp hpred with ⟨hfree, hreq⟩
        exact ⟨p, hps, hpt, hfree, hreq⟩
  · intro s o r hempty
    unfold Cafeteria.ContainersStates.find_rng_any_container_free_for
    rw [hempty]
    rfl

/-- Witness for C10 with a single free water container and an order that
needs 5 grams of water, draw 0. -/
theorem C10_find_rng_safe_witness :
    let o : Cafeteria.Order :=
      { id := 0,
        ingredientes := fun t =>
          if t = Cafeteria.IngredientType.Agua
          then some (Cafeteria.IngredientStateOfOrder.NotApplied 5) else none,
        status := Cafeteria.OrderState.InProgress }
    let s : Cafeteria.ContainersStates :=
      { principal_conteiners :=
          [(Cafeteria.IngredientType.Agua, Cafeteria.StateOfConteiner.Free, 100)],
        quantity_to_recharge := [] }
    s.order_is_processable o = true ∧
    0 < (Cafeteria.candidatesFreeFor s o).length ∧
    ∃ t : Cafeteria.IngredientType,
      s.find_rng_any_container_free_for o 0 = some (Except.ok t) ∧
      (∃ p ∈ s.principal_conteiners,
        p.1 = t ∧ p.2.1.is_free = true ∧ o.requiere p.1 = true) := by
  refine ⟨by decide, by decide, ?_⟩
  exact C10_find_rng_safe.1 _ _ 0 (by decide) (by decide)

/- ====================== claim theorems (order file) ====================== -/

/-- C8 counterexample: the token A-5 carries "-5", which is not a
non-negative decimal, yet read_orders succeeds (Rust's f32 parse accepts the
sign) and just drops the entry; and on the line "A5 A0" the token A5 has
parsed number 5 > 0 yet the order has no water entry, because the later token
A0 overwrites the slot — refuting both the error clause and the
entry-presence iff of the claim as stated. -/
theorem C8_counterexample :
    FileOrders.isNonNegDecimal ['-', '5'] = false ∧
    (FileOrders.readOrders [['A', '-', '5']]).map
        (fun res => res.map (fun o => (o.id, o.ingredientes Cafeteria.IngredientType.Agua)))
      = some [(0, none)] ∧
    ['A', '5'] ∈ FileOrders.splitWs ['A', '5', ' ', 'A', '0'] ∧
    FileOrders.parseWord ['A', '5'] = some (FileOrders.FloatVal.fin 5) ∧
    (FileOrders.FloatVal.fin 5).gtZero = true ∧
    (FileOrders.readOrders [['A', '5', ' ', 'A', '0']]).map
        (fun res => res.map (fun o => o.ingredientes Cafeteria.IngredientType.Agua))
      = some [none] := by
  refine ⟨by decide, ?_, by decide, ?_, by decide, ?_⟩
  · have hsplit : FileOrders.splitWs ['A', '-', '5'] = [['A', '-', '5']] := by decide
    have hparse : FileOrders.parseWord ['A', '-', '5']
        = some (FileOrders.FloatVal.fin (-5)) := by
      simp [FileOrders.parseWord, FileOrders.parseF32, FileOrders.parseExpPart,
        FileOrders.finishNumber, FileOrders.mantissaVal, FileOrders.natOfDigits]
    simp [FileOrders.readOrders, FileOrders.readOrdersFrom, FileOrders.lineOrder,
      hsplit, FileOrders.processWords, FileOrders.processWord, hparse,
      FileOrders.isOrderLetter, FileOrders.updateSlot, FileOrders.newWithId,
      FileOrders.FloatVal.gtZero, FileOrders.zeroF]
  · simp [FileOrders.parseWord, FileOrders.parseF32, FileOrders.parseExpPart,
      FileOrders.finishNumber, FileOrders.mantissaVal, FileOrders.natOfDigits]
  · have hsplit : FileOrders.splitWs ['A', '5', ' ', 'A', '0']
        = [['A', '5'], ['A', '0']] := by decide
    have hparse5 : FileOrders.parseWord ['A', '5']
        = some (FileOrders.FloatVal.fin 5) := by
      simp [FileOrders.parseWord, FileOrders.parseF32, FileOrders.parseExpPart,
        FileOrders.finishNumber, FileOrders.mantissaVal, FileOrders.natOfDigits]
    have hparse0 : FileOrders.parseWord ['A', '0']
        = some (FileOrders.FloatVal.fin 0) := by
      simp [FileOrders.parseWord, FileOrders.parseF32, FileOrders.parseExpPart,
        FileOrders.finishNumber, FileOrders.mantissaVal, FileOrders.natOfDigits]
    simp [FileOrders.readOrders, FileOrders.readOrdersFrom, FileOrders.lineOrder,
      hsplit, FileOrders.processWords, FileOrders.processWord, hparse5, hparse0,
      FileOrders.isOrderLetter, FileOrders.updateSlot, FileOrders.newWithId,
      FileOrders.FloatVal.gtZero, FileOrders.zeroF]

/-- C8 amended: on success read_orders yields one order per line with id
equal to the line index; an ingredient entry is present exactly when the LAST
token of the line starting with the corresponding letter (A=Agua water,
M=CafeMolido ground coffee, C=Cacao, E=EspumaLeche milk foam) parses to a
value > 0, and then holds that value; tokens starting with any other
character are ignored and the reloader ingredients never get entries; and
read_orders fails exactly when some A/M/C/E token's remainder is rejected by
Rust's f32 grammar (which accepts signed numbers, exponents and inf/nan, so
a negative number is accepted and merely yields no entry). -/
theorem C8_read_orders (lines : List (List Char)) :
    (∀ res, FileOrders.readOrders lines = some res →
      res.length = lines.length ∧
      res.map (fun o => o.id) = List.range lines.length ∧
      ∀ i line o, lines.get? i = some line → res.get? i = some o →
        o.id = i ∧
        o.ingredientes Cafeteria.IngredientType.Agua = FileOrders.entryFor 'A' line ∧
        o.ingredientes Cafeteria.IngredientType.CafeMolido = FileOrders.entryFor 'M' line ∧
        o.ingredientes Cafeteria.IngredientType.Cacao = FileOrders.entryFor 'C' line ∧
        o.ingredientes Cafeteria.IngredientType.EspumaLeche = FileOrders.entryFor 'E' line ∧
        o.ingredientes Cafeteria.IngredientType.LecheFria = none ∧
        o.ingredientes Cafeteria.IngredientType.GranosCafe = none) ∧
    (FileOrders.readOrders lines = none ↔
      ∃ line ∈ lines, ∃ w ∈ FileOrders.splitWs line,
        (∃ c, w.head? = some c ∧ FileOrders.isOrderLetter c = true) ∧
        FileOrders.parseWord w = none) := by
  constructor
  · intro res h
    obtain ⟨hlen, hids, hline⟩ := FileOrders.readOrdersFrom_spec lines 0 res h
    refine ⟨hlen, by simpa [List.range_eq_range'] using hids, ?_⟩
    intro i line o h1 h2
    have h3 := hline i line o h1 h2
    have h4 := FileOrders.lineOrder_spec (0 + i) line o h3
    refine ⟨by simpa using h4.1, h4.2.1, h4.2.2.1, h4.2.2.2.1, h4.2.2.2.2.1,
      h4.2.2.2.2.2.1, h4.2.2.2.2.2.2⟩
  · exact FileOrders.readOrdersFrom_none lines 0

/-- Witness for C8: the single-line file "A5x" errors (the token A5x has a
known letter and an unparseable remainder), and the empty file succeeds with
no orders, with the conclusions of the success part instantiated there. -/
theorem C8_read_orders_witness :
    FileOrders.readOrders [['A', '5', 'x']] = none ∧
    ([] : List FileOrders.ParsedOrder).map (fun o => o.id) = List.range 0 :=
  ⟨(C8_read_orders [['A', '5', 'x']]).2.mpr
      ⟨['A', '5', 'x'], by decide, ['A', '5', 'x'], by decide,
        ⟨'A', by decide, by decide⟩, by decide⟩,
    ((C8_read_orders []).1 [] rfl).2.1⟩

/-- C7 amended: handling Coordinator(src) transitions the state to
NotExecuting and notifies the local Nodo with ReceiveNewCoordinator(src),
but leaves the `soy_coordinador` (am_leader) flag unchanged. -/
theorem C7_coordinator_handler :
    ∀ (b : Ledger.BullyListener) (src : ℕ),
      (Ledger.handleCoordinatorMsg b src).1.estado = Ledger.BullyState.NotExecuting ∧
      (Ledger.handleCoordinatorMsg b src).1.soy_coordinador = b.soy_coordinador ∧
      (Ledger.handleCoordinatorMsg b src).2 = [src] := by
  intro b src
  exact ⟨rfl, rfl, rfl⟩
